import Mathlib

/-!
Verification of the ProRef core against its specification.

This file gives a shallow embedding, in Lean 4, of the core algorithms of the
`proref` repository (a Blender add-on for reference/override management):

* `src/core/version_utils.py`  — version token extraction, sibling-version
  discovery, latest-version lookup and version path construction;
* `src/core/validation.py`     — the override health checks;
* `src/core/library_utils.py`  — unique-name generation and the
  make-all-properties-editable pass;
* `src/operators/override_health.py` — the repair operator;
* `src/operators/batch_operations.py` — batch relink;
* `src/cli/headless_handler.py` — the headless auto-fix pass.

Pure Python string manipulation is embedded over `List Char`.  The regular
expressions used by `version_utils.py` are of the restricted shape
"separator, literal, digit run (, trailing dot)", and are embedded as
explicit scanners (`matchAtL` / `searchPatL`), which agree with
`re.search`/`re.sub` semantics for these patterns (leftmost match, greedy
digit run, `re.IGNORECASE` on the literal letters).

Host (Blender) state that the code manipulates — objects, overrides, pose
bones, libraries, the filesystem — is embedded as explicit data passed in
and returned, with filesystem and reload outcomes supplied as oracle
functions.  `os.path` / `pathlib` path splitting is embedded for
POSIX-style paths; the embedding of `pathlib` name/parent splitting matches
CPython for paths without `.`/`..` segments or repeated slashes, which is
the only divergence from the source and is irrelevant to the claims below.
-/

namespace ProRef

abbrev Chars := List Char

/-- Decimal digit test, as `\d` restricted to ASCII (the only digits the
    repository's filenames use). -/
def isDigitC (c : Char) : Bool := '0' ≤ c && c ≤ '9'

/-- The separator class `[._-]` of the version regexes. -/
def isSepC (c : Char) : Bool := c = '.' || c = '_' || c = '-'

/-- Numeric value of a digit string, as Python `int` on a digit-only string. -/
def digitsVal (ds : Chars) : Nat :=
  ds.foldl (fun a c => a * 10 + (c.toNat - 48)) 0

/-- Decimal digit character, as Python `"%d"` for one digit. -/
def digitChar (n : Nat) : Char :=
  match n with
  | 0 => '0' | 1 => '1' | 2 => '2' | 3 => '3' | 4 => '4'
  | 5 => '5' | 6 => '6' | 7 => '7' | 8 => '8' | _ => '9'

/-- Decimal printing helper; `fuel` bounds the recursion depth and is always
    called with `fuel > n`, in which case it is plain decimal printing. -/
def toDecimalAux : Nat → Nat → Chars
  | 0, _ => []
  | fuel + 1, n =>
    if n < 10 then [digitChar n]
    else toDecimalAux fuel (n / 10) ++ [digitChar (n % 10)]

/-- Decimal printing of a natural number, as Python `str`/`"{:d}"`. -/
def toDecimal (n : Nat) : Chars := toDecimalAux (n + 1) n

/-- Python `f"{n:02d}"`: decimal, left-padded with zeros to width at least 2. -/
def padTwo (n : Nat) : Chars :=
  if n < 10 then '0' :: toDecimal n else toDecimal n

/-- One version-naming pattern: a separator class, a case-insensitive literal
    (given as lower/upper pairs), one-or-more digits, optionally a trailing
    dot.  This is the exact shape of all five regexes in
    `VersionUtils.VERSION_PATTERNS`. -/
structure VPat where
  sepOk : Char → Bool
  lit : List (Char × Char)
  needDot : Bool

/-- Pattern `[._-]v(\d+)` (identifier `_v`). -/
def patV : VPat := ⟨isSepC, [('v', 'V')], false⟩

/-- Pattern `[._-]ver(\d+)` (identifier `_ver`). -/
def patVer : VPat := ⟨isSepC, [('v', 'V'), ('e', 'E'), ('r', 'R')], false⟩

/-- Pattern `[._-]version(\d+)` (identifier `_version`). -/
def patVersion : VPat :=
  ⟨isSepC, [('v', 'V'), ('e', 'E'), ('r', 'R'), ('s', 'S'), ('i', 'I'),
            ('o', 'O'), ('n', 'N')], false⟩

/-- Pattern `\.v(\d+)\.` (identifier `.v`). -/
def patDotV : VPat := ⟨(· = '.'), [('v', 'V')], true⟩

/-- Pattern `-v(\d+)` (identifier `-v`). -/
def patDashV : VPat := ⟨(· = '-'), [('v', 'V')], false⟩

/-- `VersionUtils.VERSION_PATTERNS`: the prioritized pattern list with its
    identifier tags. -/
def VERSION_PATTERNS : List (VPat × Chars) :=
  [(patV, ['_', 'v']),
   (patVer, ['_', 'v', 'e', 'r']),
   (patVersion, ['_', 'v', 'e', 'r', 's', 'i', 'o', 'n']),
   (patDotV, ['.', 'v']),
   (patDashV, ['-', 'v'])]

/-- Case-insensitive literal matching; returns the rest of the input on
    success. -/
def matchLitL : List (Char × Char) → Chars → Option Chars
  | [], s => some s
  | _ :: _, [] => none
  | (lo, up) :: ls, c :: s => if c = lo || c = up then matchLitL ls s else none

/-- Try to match pattern `p` at the start of `s`; on success return the
    captured number and the total number of characters consumed by the match
    (used by the `re.sub` embedding).  The digit run is maximal, matching the
    greedy `\d+`; for `needDot` patterns a shorter run cannot back off onto a
    dot because every backed-off position still holds a digit. -/
def matchAtL (p : VPat) (s : Chars) : Option (Nat × Nat) :=
  match s with
  | [] => none
  | c :: rest =>
    if p.sepOk c then
      match matchLitL p.lit rest with
      | none => none
      | some r =>
        let ds := r.takeWhile isDigitC
        if ds.isEmpty then none
        else if p.needDot then
          match r.drop ds.length with
          | '.' :: _ => some (digitsVal ds, 1 + p.lit.length + ds.length + 1)
          | _ => none
        else some (digitsVal ds, 1 + p.lit.length + ds.length)
    else none

/-- `re.search` for one pattern: try every start position left to right,
    return the first captured number. -/
def searchPatL (p : VPat) : Chars → Option Nat
  | [] => none
  | c :: rest =>
    match matchAtL p (c :: rest) with
    | some (v, _) => some v
    | none => searchPatL p rest

/-- `re.sub(pattern, '', s)` for one pattern: delete every non-overlapping
    leftmost match.  `fuel` bounds the recursion and every use supplies
    `fuel ≥ length s`, which always suffices since each step consumes at
    least one character. -/
def subPatAux (p : VPat) : Nat → Chars → Chars
  | 0, s => s
  | _ + 1, [] => []
  | fuel + 1, c :: rest =>
    match matchAtL p (c :: rest) with
    | some (_, k) => subPatAux p fuel ((c :: rest).drop k)
    | none => c :: subPatAux p fuel rest

/-- `re.sub(pattern, '', s)`. -/
def subPatL (p : VPat) (s : Chars) : Chars := subPatAux p s.length s

/-! ### Path splitting (`os.path` / `pathlib`, POSIX flavour) -/

/-- `os.path.basename`: everything after the last `/`. -/
def basenameL (s : Chars) : Chars := (s.reverse.takeWhile (· ≠ '/')).reverse

/-- Drop trailing slashes (used by the `pathlib` name/parent embedding). -/
def stripSlashesR (s : Chars) : Chars := (s.reverse.dropWhile (· = '/')).reverse

/-- `pathlib.PurePath.name` for slash-normal paths. -/
def pathNameL (s : Chars) : Chars := basenameL (stripSlashesR s)

/-- `pathlib` stem/suffix split of a final path component: the suffix starts
    at the last dot provided that dot is neither the first nor the last
    character of the name. -/
def splitExtL (name : Chars) : Chars × Chars :=
  let pre := name.reverse.takeWhile (· ≠ '.')
  if pre.length = name.length then (name, [])
  else if pre.length = 0 then (name, [])
  else if pre.length = name.length - 1 then (name, [])
  else (name.take (name.length - pre.length - 1), '.' :: pre.reverse)

/-- `pathlib.PurePath.stem`. -/
def pathStemL (s : Chars) : Chars := (splitExtL (pathNameL s)).1

/-- `pathlib.PurePath.suffix`. -/
def pathSuffixL (s : Chars) : Chars := (splitExtL (pathNameL s)).2

/-- `pathlib.PurePath.parent`, rendered as a string (slash-normal paths). -/
def pathParentL (s : Chars) : Chars :=
  let t := stripSlashesR s
  let head := (t.reverse.dropWhile (· ≠ '/')).reverse
  if head = [] then ['.']
  else if head.all (· = '/') then ['/']
  else stripSlashesR head

/-- `str(Path(parent) / name)` (slash-normal paths). -/
def pathJoinL (parent name : Chars) : Chars :=
  if parent = ['.'] || parent = [] then name
  else if parent.getLast? = some '/' then parent ++ name
  else parent ++ '/' :: name

/-- `os.path.dirname` (POSIX). -/
def dirnameL (s : Chars) : Chars :=
  let head := s.take (s.length - (basenameL s).length)
  if head.all (· = '/') then head else stripSlashesR head

/-- `str(p)` for the paths produced by `Path(directory).glob(...)`:
    the directory joined with the matched file name. -/
def joinDirL (d f : Chars) : Chars :=
  if d = [] || d = ['.'] then f
  else
    let t := stripSlashesR d
    if t = [] then '/' :: f else t ++ '/' :: f

/-! ### `VersionUtils` -/

/-- `VersionUtils.extract_version` on the character list of a filepath:
    take the basename, try the patterns in priority order, return the first
    captured integer. -/
def extract_versionL (filepath : Chars) : Option Nat :=
  let filename := basenameL filepath
  VERSION_PATTERNS.findSome? fun pr => searchPatL pr.1 filename

/-- `VersionUtils.get_version_pattern`: the identifier of the first pattern
    that matches the basename. -/
def get_version_patternL (filepath : Chars) : Option Chars :=
  let filename := basenameL filepath
  VERSION_PATTERNS.findSome? fun pr =>
    if (searchPatL pr.1 filename).isSome then some pr.2 else none

/-- `VersionUtils.get_base_name`: the `pathlib` stem with every pattern
    subtracted in order by `re.sub`. -/
def get_base_nameL (filepath : Chars) : Chars :=
  VERSION_PATTERNS.foldl (fun stem pr => subPatL pr.1 stem) (pathStemL filepath)

/-- `VersionUtils.build_version_path`: rebuild
    `{base_name}{pattern_type or '_v'}{version:02d}{suffix}` next to the
    input path. -/
def build_version_pathL (base_filepath : Chars) (version_number : Nat) : Chars :=
  let base_name := get_base_nameL base_filepath
  let pattern_type := (get_version_patternL base_filepath).getD ['_', 'v']
  let new_stem := base_name ++ pattern_type ++ padTwo version_number
  pathJoinL (pathParentL base_filepath) (new_stem ++ pathSuffixL base_filepath)

/-- String-level `VersionUtils.extract_version`. -/
def extract_version (filepath : String) : Option Nat :=
  extract_versionL filepath.data

/-- String-level `VersionUtils.get_version_pattern`. -/
def get_version_pattern (filepath : String) : Option String :=
  (get_version_patternL filepath.data).map fun l => String.mk l

/-- String-level `VersionUtils.get_base_name`. -/
def get_base_name (filepath : String) : String :=
  String.mk (get_base_nameL filepath.data)

/-- String-level `VersionUtils.build_version_path`. -/
def build_version_path (base_filepath : String) (version_number : Nat) : String :=
  String.mk (build_version_pathL base_filepath.data version_number)

/-- Pattern-as-leading-part test for the glob embedding. -/
def hasPre : Chars → Chars → Bool
  | [], _ => true
  | _ :: _, [] => false
  | a :: as, b :: bs => a = b && hasPre as bs

/-- Pattern-as-trailing-part test for the glob embedding. -/
def hasSuf (x s : Chars) : Bool := hasPre x.reverse s.reverse

/-- `fnmatch` for the glob `{base_name}{pattern_type}*{suffix}` built by
    `find_all_versions`: the name starts with the fixed leading part, ends
    with the extension, and is long enough that the two do not overlap
    (`*` matches any, possibly empty, run).  Glob metacharacters inside the
    fixed parts are not modeled; the repository's asset names contain none. -/
def globMatchL (pre suf f : Chars) : Bool :=
  hasPre pre f && hasSuf suf f && decide (pre.length + suf.length ≤ f.length)

/-- Sort key used by `find_all_versions`: `x[1] if x[1] is not None else 0`. -/
def versionKey (e : String × Option Nat) : Nat := e.2.getD 0

/-- `VersionUtils.find_all_versions`.  The filesystem is supplied explicitly:
    `files` is the directory listing (in traversal order) of the input path's
    directory, `fileExists`/`dirExists` are the two `os.path.exists` probes.
    `List.insertionSort` is a stable sort and therefore extensionally equal
    to Python's stable `list.sort` under the same key. -/
def find_all_versions (files : List String) (fileExists dirExists : Bool)
    (filepath : String) : List (String × Option Nat) :=
  if !fileExists && !dirExists then []
  else
    match get_version_patternL filepath.data with
    | none => [(filepath, none)]
    | some pattern_type =>
      let dir := dirnameL filepath.data
      let pre := get_base_nameL filepath.data ++ pattern_type
      let suf := pathSuffixL filepath.data
      let cands := files.filter fun f => globMatchL pre suf f.data
      let versions := cands.filterMap fun f =>
        (extract_versionL (joinDirL dir f.data)).map
          fun v => (String.mk (joinDirL dir f.data), some v)
      versions.insertionSort fun a b => versionKey a ≤ versionKey b

/-- `VersionUtils.get_latest_version`: last element of `find_all_versions`,
    or `(filepath, None)` when there are none. -/
def get_latest_version (files : List String) (fileExists dirExists : Bool)
    (filepath : String) : String × Option Nat :=
  match (find_all_versions files fileExists dirExists filepath).getLast? with
  | none => (filepath, none)
  | some e => e

/-- `VersionUtils.has_newer_version`. -/
def has_newer_version (files : List String) (fileExists dirExists : Bool)
    (filepath : String) : Bool :=
  match extract_versionL filepath.data with
  | none => false
  | some current =>
    match (get_latest_version files fileExists dirExists filepath).2 with
    | none => false
    | some latest => decide (current < latest)

/-! ### `LibraryUtils.get_unique_name` -/

/-- Python `f"{n:03d}"`. -/
def padThree (n : Nat) : Chars :=
  if n < 10 then '0' :: '0' :: toDecimal n
  else if n < 100 then '0' :: toDecimal n
  else toDecimal n

/-- The candidate `f"{base_name}.{counter:03d}"` of the unique-name loop. -/
def suffixName (base : String) (k : Nat) : String :=
  base ++ "." ++ String.mk (padThree k)

/-- The `while name in existing_names` loop of `get_unique_name`, unrolled
    with a fuel bound; every use supplies fuel `existing.length + 1`, which
    the pigeonhole argument below shows is always enough, so the fuel-out
    branch is never reached. -/
def uniqueNameAux (base : String) (existing : List String) : Nat → Nat → String
  | 0, k => suffixName base k
  | fuel + 1, k =>
    let cand := suffixName base k
    if cand ∈ existing then uniqueNameAux base existing fuel (k + 1) else cand

/-- `LibraryUtils.get_unique_name` with an explicit existing-name set. -/
def get_unique_name (base_name : String) (existing_names : List String) : String :=
  if base_name ∈ existing_names then
    uniqueNameAux base_name existing_names (existing_names.length + 1) 1
  else base_name

/-! ### Batch relink (`PROREF_OT_BatchRelink.execute`) -/

/-- One `bpy.data.libraries` entry: name and stored filepath. -/
structure LibEntry where
  name : String
  filepath : String
deriving Repr, DecidableEq

/-- One `settings.linked_libraries` row: referenced library name and its
    selection checkbox. -/
structure SelEntry where
  library_name : String
  selected : Bool
deriving Repr, DecidableEq

/-- `bpy.data.libraries.get(name)`, projected to the stored filepath. -/
def libLookup (libs : List LibEntry) (n : String) : Option String :=
  (libs.find? fun l => l.name = n).map (·.filepath)

/-- Assignment `library.filepath = p` on the library named `n` (the entry
    `bpy.data.libraries.get` resolves, i.e. the first with that name). -/
def libSetPath (libs : List LibEntry) (n : String) (p : String) : List LibEntry :=
  match libs with
  | [] => []
  | l :: ls =>
    if l.name = n then { l with filepath := p } :: ls else l :: libSetPath ls n p

/-- Python `sub in s` (substring containment). -/
def containsSubL (pat : Chars) : Chars → Bool
  | [] => pat.isEmpty
  | c :: rest => hasPre pat (c :: rest) || containsSubL pat rest

/-- Python `s.replace(pat, rep)` for nonempty `pat`: replace every
    non-overlapping occurrence left to right.  `fuel` bounds the recursion
    and `replaceAllL` supplies `length s`, which always suffices because a
    nonempty match consumes at least one character. -/
def replaceAux (pat rep : Chars) : Nat → Chars → Chars
  | 0, s => s
  | _ + 1, [] => []
  | fuel + 1, c :: rest =>
    if hasPre pat (c :: rest) then rep ++ replaceAux pat rep fuel ((c :: rest).drop pat.length)
    else c :: replaceAux pat rep fuel rest

/-- Python `s.replace(pat, rep)`; the operator only calls it with a nonempty
    search string (empty search is rejected with `CANCELLED` beforehand). -/
def replaceAllL (pat rep s : Chars) : Chars :=
  if pat.isEmpty then s else replaceAux pat rep s.length s

/-- Reload outcome oracle for `Library.reload()`: whether reloading from the
    given stored filepath succeeds. -/
structure RelinkEnv where
  reloadOk : String → Bool

/-- One iteration of the `for lib_data in selected_libs` loop of
    `PROREF_OT_BatchRelink.execute`, threading
    (libraries, success_count, failed_count).  `relocate_library` assigns the
    new filepath before `reload()`, so the path stays rewritten even when
    the reload fails. -/
def relinkStep (env : RelinkEnv) (search replace : String)
    (st : List LibEntry × Nat × Nat) (ld : SelEntry) : List LibEntry × Nat × Nat :=
  let (libs, succ, fail) := st
  match libLookup libs ld.library_name with
  | none => (libs, succ, fail + 1)
  | some old_path =>
    if !containsSubL search.data old_path.data then (libs, succ, fail)
    else
      let new_path := String.mk (replaceAllL search.data replace.data old_path.data)
      let libs2 := libSetPath libs ld.library_name new_path
      if env.reloadOk new_path then (libs2, succ + 1, fail) else (libs2, succ, fail + 1)

/-- `PROREF_OT_BatchRelink.execute`: `none` models `{'CANCELLED'}` (empty
    search string, or nothing selected); otherwise the final libraries and
    the reported `(success_count, failed_count)`. -/
def batch_relink (env : RelinkEnv) (search replace : String)
    (settings : List SelEntry) (libs : List LibEntry) :
    Option (List LibEntry × Nat × Nat) :=
  if search = "" then none
  else
    let sel := settings.filter (·.selected)
    if sel.isEmpty then none
    else some (sel.foldl (relinkStep env search replace) (libs, 0, 0))

/-- The rewritten path `old_path.replace(search, replace)`. -/
def relinkNewPath (search replace pth : String) : String :=
  String.mk (replaceAllL search.data replace.data pth.data)

/-- What a stored path becomes after the batch relink: rewritten when it
    contains the search string, untouched otherwise. -/
def relinkUpd (search replace : String) (pth : String) : String :=
  if containsSubL search.data pth.data then relinkNewPath search replace pth
  else pth

/-- Whether a selected row counts as a success: its library resolves, its
    path contains the search string, and the reload of the rewritten path
    succeeds. -/
def relinkSucc (env : RelinkEnv) (search replace : String)
    (libs : List LibEntry) (ld : SelEntry) : Bool :=
  match libLookup libs ld.library_name with
  | some pth => containsSubL search.data pth.data &&
      env.reloadOk (relinkNewPath search replace pth)
  | none => false

/-- Whether a selected row counts as a failure: its library does not
    resolve, or the rewrite happened but the reload failed.  A resolving
    library whose path lacks the search string is counted by neither
    `relinkSucc` nor `relinkFail`. -/
def relinkFail (env : RelinkEnv) (search replace : String)
    (libs : List LibEntry) (ld : SelEntry) : Bool :=
  match libLookup libs ld.library_name with
  | some pth => containsSubL search.data pth.data &&
      !env.reloadOk (relinkNewPath search replace pth)
  | none => true

/-! ### Headless auto-fix (`HeadlessHandler.auto_fix_broken_links`) -/

/-- Filesystem and host oracles for the headless handler: `abspath` is
    `bpy.path.abspath`, `expand` is `resolve_environment_path`
    (`os.path.expandvars` then `expanduser`), `fsExists` is
    `os.path.exists`, `reloadOk` the reload outcome on a stored path. -/
structure FsEnv where
  abspath : String → String
  expand : String → String
  fsExists : String → Bool
  reloadOk : String → Bool

/-- The statistics record returned by `auto_fix_broken_links`. -/
structure FixStats where
  total : Nat
  fixed : Nat
  missing : Nat
  already_ok : Nat
deriving Repr, DecidableEq

/-- One iteration of the `for library in bpy.data.libraries` loop of
    `auto_fix_broken_links`, threading (processed libraries, stats, log of
    attempted reloads).  On a successful existence probe of the resolved
    path in fixing mode, the filepath is assigned first and the reload then
    either counts as fixed or as missing. -/
def autoFixStep (env : FsEnv) (report_only : Bool)
    (st : List LibEntry × FixStats × List String) (lib : LibEntry) :
    List LibEntry × FixStats × List String :=
  let (acc, stats, reloads) := st
  let stats := { stats with total := stats.total + 1 }
  if env.fsExists (env.abspath lib.filepath) then
    (acc ++ [lib], { stats with already_ok := stats.already_ok + 1 }, reloads)
  else
    let resolved := env.expand lib.filepath
    if env.fsExists resolved then
      if !report_only then
        let lib2 := { lib with filepath := resolved }
        if env.reloadOk resolved then
          (acc ++ [lib2], { stats with fixed := stats.fixed + 1 }, reloads ++ [resolved])
        else
          (acc ++ [lib2], { stats with missing := stats.missing + 1 }, reloads ++ [resolved])
      else (acc ++ [lib], { stats with fixed := stats.fixed + 1 }, reloads)
    else (acc ++ [lib], { stats with missing := stats.missing + 1 }, reloads)

/-- `HeadlessHandler.auto_fix_broken_links`: returns the libraries after the
    pass, the statistics, and the list of reload attempts performed. -/
def auto_fix_broken_links (env : FsEnv) (report_only : Bool)
    (libs : List LibEntry) : List LibEntry × FixStats × List String :=
  libs.foldl (autoFixStep env report_only) ([], ⟨0, 0, 0, 0⟩, [])

/-! ### The Blender object model used by validation and repair

An `Obj` carries exactly the host state the embedded functions read or
write: the object type tag, the optional library override (reference,
editable-property list, system-override flag), the optional pose (a list of
pose bones with per-axis lock flags and constraints), the RNA property
table (identifiers and read-only flags), the string-valued custom ID
properties, and the child objects. -/

/-- One pose-bone constraint.  `target = none` models a constraint class
    without a `target` attribute, `some none` an unset target, and
    `some (some ())` a set target. -/
structure Constraint where
  mute : Bool
  target : Option (Option Unit)
  ctype : String
deriving Repr, DecidableEq

/-- Per-axis lock flags, as the three-element boolean vectors
    `lock_location` / `lock_rotation` / `lock_scale`. -/
structure Axes where
  x : Bool
  y : Bool
  z : Bool
deriving Repr, DecidableEq

/-- Python `any(axes)`. -/
def anyAx (a : Axes) : Bool := a.x || a.y || a.z

/-- Python `all(axes)`. -/
def allAx (a : Axes) : Bool := a.x && a.y && a.z

/-- One pose bone. -/
structure PoseBone where
  name : String
  lock_location : Axes
  lock_rotation : Axes
  lock_scale : Axes
  constraints : List Constraint
deriving Repr, DecidableEq

/-- A linked library as seen from an override reference. -/
structure LinkedLib where
  name : String
  filepath : String
deriving Repr, DecidableEq

/-- `override_library.reference`: the linked datablock being overridden. -/
structure RefNode where
  name : String
  library : Option LinkedLib
deriving Repr, DecidableEq

/-- `obj.override_library`: `is_system_override = none` models a Blender
    version without that attribute (`hasattr` false). -/
structure Override where
  reference : Option RefNode
  properties : List String
  is_system_override : Option Bool
deriving Repr, DecidableEq

/-- One entry of `obj.bl_rna.properties`. -/
structure RnaProp where
  identifier : String
  is_readonly : Bool
deriving Repr, DecidableEq

/-- A scene object with its children. -/
inductive Obj where
  | mk (otype : String)
       (override_library : Option Override)
       (pose : Option (List PoseBone))
       (rna_props : List RnaProp)
       (id_props : List (String × String))
       (children : List Obj)
deriving Repr

/-- Object type tag (`obj.type`). -/
def Obj.otype : Obj → String
  | .mk t _ _ _ _ _ => t

/-- The optional override (`obj.override_library`). -/
def Obj.override_library : Obj → Option Override
  | .mk _ ov _ _ _ _ => ov

/-- The optional pose (`obj.pose`), as its bone list. -/
def Obj.pose : Obj → Option (List PoseBone)
  | .mk _ _ p _ _ _ => p

/-- The RNA property table (`obj.bl_rna.properties`). -/
def Obj.rna_props : Obj → List RnaProp
  | .mk _ _ _ r _ _ => r

/-- The custom ID properties (`obj["..."]`). -/
def Obj.id_props : Obj → List (String × String)
  | .mk _ _ _ _ i _ => i

/-- The direct children (`obj.children`). -/
def Obj.children : Obj → List Obj
  | .mk _ _ _ _ _ c => c

/-- Replace the custom ID properties. -/
def Obj.setIdProps : Obj → List (String × String) → Obj
  | .mk t ov p r _ c, i => .mk t ov p r i c

/-- Host state read by validation and repair: the names in `bpy.data.texts`
    and the composed probe `os.path.exists(bpy.path.abspath(...))`. -/
structure HostEnv where
  texts : List String
  abspath : String → String
  fsExists : String → Bool

/-- Custom-property read `obj.get(key)` (Python dict keys are unique; the
    first hit is the binding). -/
def idGet (idp : List (String × String)) (k : String) : Option String :=
  (idp.find? fun kv => kv.1 = k).map (·.2)

/-- Custom-property write `obj[key] = v`. -/
def idSet : List (String × String) → String → String → List (String × String)
  | [], k, v => [(k, v)]
  | kv :: rest, k, v =>
    if kv.1 = k then (k, v) :: rest else kv :: idSet rest k v

/-- Custom-property delete `del obj[key]`. -/
def idDel : List (String × String) → String → List (String × String)
  | [], _ => []
  | kv :: rest, k => if kv.1 = k then rest else kv :: idDel rest k

/-! ### `OverrideValidator` (src/core/validation.py) -/

/-- The `result['info']` mapping of a health check; `none` is an absent key,
    and `Info.update` below is `dict.update`. -/
structure Info where
  reference_name : Option String := none
  library_name : Option String := none
  library_path : Option String := none
  library_exists : Option Bool := none
  override_property_count : Option Nat := none
  bone_count : Option Nat := none
  locked_bone_count : Option Nat := none
  constraint_issues : Option Nat := none
  has_rig_ui : Option Bool := none
deriving Repr, DecidableEq

/-- `dict.update`: keys present in `b` overwrite those of `a`. -/
def Info.update (a b : Info) : Info where
  reference_name := b.reference_name.rec a.reference_name (fun v => some v)
  library_name := b.library_name.rec a.library_name (fun v => some v)
  library_path := b.library_path.rec a.library_path (fun v => some v)
  library_exists := b.library_exists.rec a.library_exists (fun v => some v)
  override_property_count :=
    b.override_property_count.rec a.override_property_count (fun v => some v)
  bone_count := b.bone_count.rec a.bone_count (fun v => some v)
  locked_bone_count := b.locked_bone_count.rec a.locked_bone_count (fun v => some v)
  constraint_issues := b.constraint_issues.rec a.constraint_issues (fun v => some v)
  has_rig_ui := b.has_rig_ui.rec a.has_rig_ui (fun v => some v)

/-- The health-check result record. -/
structure Health where
  is_healthy : Bool
  issues : List String
  warnings : List String
  info : Info
deriving Repr, DecidableEq

/-- Decimal rendering used inside report messages. -/
def natStr (n : Nat) : String := String.mk (toDecimal n)

/-- The warning `f"Many bones locked ({locked_count}/{bone_count})"`. -/
def manyLockedMsg (locked total : Nat) : String :=
  "Many bones locked (" ++ natStr locked ++ "/" ++ natStr total ++ ")"

/-- The warning `f"{constraint_issues} constraints missing targets"`. -/
def constraintsMsg (k : Nat) : String := natStr k ++ " constraints missing targets"

/-- A bone counts as locked for the health check iff any lock flag of any of
    the three categories is set (`any(...) or any(...) or any(...)`). -/
def boneAnyLocked (b : PoseBone) : Bool :=
  anyAx b.lock_location || anyAx b.lock_rotation || anyAx b.lock_scale

/-- Constraint types exempt from the missing-target warning. -/
def limitTypes : List String := ["LIMIT_LOCATION", "LIMIT_ROTATION", "LIMIT_SCALE"]

/-- A constraint counts as a missing-target issue iff it is unmuted, has a
    `target` attribute whose value is `None`, and is not of a limit type. -/
def constraintIssue (c : Constraint) : Bool :=
  !c.mute && c.target = some none && !(limitTypes.contains c.ctype)

/-- `OverrideValidator._check_armature_status` on the armature's pose:
    returns the produced warnings and info entries.  The Python comparison
    `locked_count > bone_count * 0.5` is exact on these integer magnitudes
    and equals `2 * locked_count > bone_count`. -/
def check_armature_status (pose : Option (List PoseBone)) : List String × Info :=
  match pose with
  | none => (["Armature has no pose data"], {})
  | some bones =>
    let bone_count := bones.length
    let locked_count := (bones.filter boneAnyLocked).length
    let lockWarns :=
      if 2 * locked_count > bone_count then [manyLockedMsg locked_count bone_count]
      else []
    let constraint_issues := ((bones.flatMap (·.constraints)).filter constraintIssue).length
    let cWarns := if constraint_issues > 0 then [constraintsMsg constraint_issues] else []
    (lockWarns ++ cWarns,
     { bone_count := some bone_count, locked_bone_count := some locked_count,
       constraint_issues := some constraint_issues })

/-- `OverrideValidator._check_library_status`. -/
def check_library_status (env : HostEnv) (ov : Override) : List String × Info :=
  match ov.reference with
  | none => ([], {})
  | some ref =>
    match ref.library with
    | none => ([], {})
    | some lib =>
      let info : Info := { library_name := some lib.name, library_path := some lib.filepath }
      if !env.fsExists (env.abspath lib.filepath) then
        (["Library file not found: " ++ lib.filepath], info)
      else ([], { info with library_exists := some true })

/-- `OverrideValidator.check_override_health`. -/
def check_override_health (env : HostEnv) (o : Obj) : Health :=
  match o.override_library with
  | none => ⟨false, ["Object is not a library override"], [], {}⟩
  | some ov =>
    let (refIssues, refInfo) :=
      match ov.reference with
      | none => (["Override reference is missing"], ({} : Info))
      | some ref => ([], ({ reference_name := some ref.name } : Info))
    let (libIssues, libInfo) := check_library_status env ov
    let prop_count := ov.properties.length
    let propWarns :=
      if prop_count = 0 then ["No override properties - may not be editable"] else []
    let (armWarns, armInfo) :=
      if o.otype = "ARMATURE" then check_armature_status o.pose else ([], {})
    let has_rig_ui := (idGet o.id_props "proref_rig_ui").isSome
    { is_healthy := ov.reference.isSome && libIssues.isEmpty
      issues := refIssues ++ libIssues
      warnings := propWarns ++ armWarns
      info :=
        ((refInfo.update libInfo).update
          { override_property_count := some prop_count }).update
          ({ armInfo with has_rig_ui := some has_rig_ui }) }

/-- `OverrideValidator.diagnose_common_issues`: ordered
    `(issue_type, description, severity)` triples. -/
def diagnose_common_issues (env : HostEnv) (o : Obj) :
    List (String × String × String) :=
  match o.override_library with
  | none => [("NOT_OVERRIDE", "Object is not a library override", "ERROR")]
  | some ov =>
    (if ov.reference.isNone then
       [("MISSING_REFERENCE",
         "Override reference missing - linked object may be deleted", "ERROR")]
     else []) ++
    (match ov.reference with
     | some ref =>
       match ref.library with
       | some lib =>
         if !env.fsExists (env.abspath lib.filepath) then
           [("LIBRARY_NOT_FOUND",
             "Library file missing: " ++ env.abspath lib.filepath, "ERROR")]
         else []
       | none => []
     | none => []) ++
    (if ov.properties.length = 0 then
       [("NO_EDITABLE_PROPS", "No editable properties - use 'Make All Editable'",
         "WARNING")]
     else []) ++
    (match ov.is_system_override with
     | some true => [("SYSTEM_OVERRIDE", "System-generated override - may need resync", "INFO")]
     | _ => [])

/-! ### `LibraryUtils.make_all_properties_editable` and the repair operator -/

/-- `override_library.properties.add(rna_path=...)`: in Blender this returns
    the existing entry when the path is already present (per the
    specification, re-adding is a no-op, not an error), so the collection
    gains the path only when absent. -/
def addPath (props : List String) (p : String) : List String :=
  if p ∈ props then props else props ++ [p]

/-- The five transform channels made editable per bone. -/
def transformChannels : List String :=
  ["location", "rotation_euler", "rotation_quaternion", "rotation_axis_angle", "scale"]

/-- The `pose.bones["name"].channel` / `...constraints[i].influence` paths
    attempted for one bone. -/
def bonePaths (b : PoseBone) : List String :=
  transformChannels.map
    (fun pn => "pose.bones[\"" ++ b.name ++ "\"]." ++ pn) ++
  (List.range b.constraints.length).map
    (fun i => "pose.bones[\"" ++ b.name ++ "\"].constraints[" ++ natStr i ++ "].influence")

/-- All `rna_path` adds `process_object` attempts on one object with an
    override: the writable non-identity RNA identifiers, then (for a posed
    armature) the per-bone paths.  Its length is exactly the number of
    `count += 1` increments, since in the host model `add` never raises. -/
def objAddList (t : String) (pose : Option (List PoseBone)) (rna : List RnaProp) :
    List String :=
  (rna.filter fun pr =>
      !pr.is_readonly && pr.identifier ≠ "rna_type" && pr.identifier ≠ "name").map
    (·.identifier) ++
  (if t = "ARMATURE" then
     match pose with
     | some bones => bones.flatMap bonePaths
     | none => []
   else [])

mutual
/-- `process_object` inside `make_all_properties_editable`: returns the
    updated object and the add-attempt count.  An object without an override
    is returned untouched and its children are not visited. -/
def maeObj : Obj → Obj × Nat
  | .mk t ovr pose rna idp ch =>
    match ovr with
    | none => (.mk t none pose rna idp ch, 0)
    | some ov =>
      let L := objAddList t pose rna
      let (ch2, m) := maeList ch
      (.mk t (some { ov with properties := L.foldl addPath ov.properties })
         pose rna idp ch2,
       L.length + m)

/-- `process_object` over a child list. -/
def maeList : List Obj → List Obj × Nat
  | [] => ([], 0)
  | o :: os =>
    let (o2, n) := maeObj o
    let (os2, m) := maeList os
    (o2 :: os2, n + m)
end

/-- `LibraryUtils.make_all_properties_editable`. -/
def make_all_properties_editable (o : Obj) : Obj × Nat := maeObj o

mutual
/-- `LibraryUtils.find_armature_in_hierarchy`: the object itself when it is
    an armature, else the first armature among its descendants in
    depth-first order. -/
def findArm : Obj → Option Obj
  | .mk t ovr pose rna idp ch =>
    if t = "ARMATURE" then some (.mk t ovr pose rna idp ch) else findArmList ch

/-- `find_armature_in_hierarchy` over a child list. -/
def findArmList : List Obj → Option Obj
  | [] => none
  | c :: cs =>
    match findArm c with
    | some a => some a
    | none => findArmList cs
end

mutual
/-- Apply `f` in place to the armature `findArm` resolves (the host mutates
    that object through the reference it obtained). -/
def updArm (f : Obj → Obj) : Obj → Obj
  | .mk t ovr pose rna idp ch =>
    if t = "ARMATURE" then f (.mk t ovr pose rna idp ch)
    else .mk t ovr pose rna idp (updArmList f ch)

/-- In-place update over a child list: the first child whose subtree holds
    an armature is updated. -/
def updArmList (f : Obj → Obj) : List Obj → List Obj
  | [] => []
  | c :: cs =>
    if (findArm c).isSome then updArm f c :: cs else c :: updArmList f cs
end

/-- A bone is fully locked when all three categories are locked on every
    axis. -/
def boneFullyLocked (b : PoseBone) : Bool :=
  allAx b.lock_location && allAx b.lock_rotation && allAx b.lock_scale

/-- The unlock step of `_repair_armature` on one bone. -/
def unlockBone (b : PoseBone) : PoseBone :=
  if boneFullyLocked b then
    { b with lock_location := ⟨false, false, false⟩,
             lock_rotation := ⟨false, false, false⟩,
             lock_scale := ⟨false, false, false⟩ }
  else b

/-- `PROREF_OT_RepairOverride._repair_armature` (the caller guards on the
    object type): clear the locks of every fully locked bone and report how
    many. -/
def repairArmature (o : Obj) : Obj × List String :=
  match o with
  | .mk t ovr pose rna idp ch =>
    match pose with
    | none => (.mk t ovr none rna idp ch, [])
    | some bones =>
      let unlocked := (bones.filter boneFullyLocked).length
      (.mk t ovr (some (bones.map unlockBone)) rna idp ch,
       if unlocked > 0 then ["Unlocked " ++ natStr unlocked ++ " fully-locked bones"]
       else [])

/-- `PROREF_OT_RepairOverride._repair_rig_ui_reference`: restore or clear a
    dangling `"proref_rig_ui"` custom property on the hierarchy's armature.
    Python string truthiness makes the empty string behave as an absent
    reference. -/
def repairRigUi (env : HostEnv) (o : Obj) : Obj × Option String :=
  match findArm o with
  | none => (o, none)
  | some arm =>
    match idGet arm.id_props "proref_rig_ui" with
    | none => (o, none)
    | some script_name =>
      if script_name = "" then (o, none)
      else if script_name ∈ env.texts then (o, none)
      else
        match idGet arm.id_props "proref_original_script" with
        | some original =>
          if original ≠ "" ∧ original ∈ env.texts then
            (updArm (fun a => a.setIdProps (idSet a.id_props "proref_rig_ui" original)) o,
             some ("Restored rig UI reference to " ++ original))
          else
            (updArm (fun a => a.setIdProps (idDel a.id_props "proref_rig_ui")) o,
             some "Cleared broken rig UI reference")
        | none =>
          (updArm (fun a => a.setIdProps (idDel a.id_props "proref_rig_ui")) o,
           some "Cleared broken rig UI reference")

/-- Python `.lower()` (ASCII, as used on the repair messages). -/
def toLowerS (s : String) : String := String.mk (s.data.map Char.toLower)

/-- `PROREF_OT_RepairOverride._attempt_repair`: returns the (possibly
    mutated) object, the success message, and the error message. -/
def attemptRepair (o : Obj) (issue_type : String) : Obj × Option String × Option String :=
  if issue_type = "NO_EDITABLE_PROPS" then
    let (o2, count) := make_all_properties_editable o
    if count > 0 then
      (o2, some ("Made " ++ natStr count ++ " properties editable"), none)
    else (o2, none, none)
  else if issue_type = "MISSING_REFERENCE" then
    (o, none, some "Cannot auto-repair missing reference")
  else if issue_type = "LIBRARY_NOT_FOUND" then
    (o, none, some "Library file missing - use Relocate")
  else if issue_type = "SYSTEM_OVERRIDE" then
    match o with
    | .mk t ovr pose rna idp ch =>
      match ovr with
      | some ov =>
        match ov.is_system_override with
        | some _ =>
          (.mk t (some { ov with is_system_override := some false }) pose rna idp ch,
           some "Converted system override to editable", none)
        | none => (.mk t (some ov) pose rna idp ch, none, none)
      | none => (.mk t none pose rna idp ch, none, none)
  else (o, none, none)

/-- One iteration of the diagnostics-driven repair loop, threading
    (object, repairs, errors). -/
def repairLoopStep (st : Obj × List String × List String)
    (iss : String × String × String) : Obj × List String × List String :=
  let (ob, rs, es) := st
  let (ob2, msg, err) := attemptRepair ob iss.1
  (ob2, rs ++ msg.toList, es ++ err.toList)

/-- The result of `PROREF_OT_RepairOverride.execute`: the object afterwards,
    the reported repairs and errors, and whether the operator finished
    (`true`) or cancelled (`false`). -/
structure RepairResult where
  obj : Obj
  repairs : List String
  errors : List String
  finished : Bool

/-- `PROREF_OT_RepairOverride.execute` on a resolved object: diagnostics-
    driven repairs in order, the unconditional editability pass (unless an
    earlier repair message mentions `editable`), the armature unlock pass,
    and the rig-UI reference pass. -/
def repair_execute (env : HostEnv) (o : Obj) : RepairResult :=
  match o.override_library with
  | none => ⟨o, [], [], false⟩
  | some _ =>
    let issues := diagnose_common_issues env o
    let (o1, repairs, errors) := issues.foldl repairLoopStep (o, [], [])
    let (o2, repairs2) :=
      if !(repairs.any fun r => containsSubL "editable".data (toLowerS r).data) then
        let (ob, count) := make_all_properties_editable o1
        (ob,
         if count > 0 then repairs ++ ["Made " ++ natStr count ++ " properties editable"]
         else repairs)
      else (o1, repairs)
    let (o3, armRepairs) :=
      if o2.otype = "ARMATURE" then repairArmature o2 else (o2, [])
    let repairs3 := repairs2 ++ armRepairs
    let (o4, rigMsg) := repairRigUi env o3
    let repairs4 := repairs3 ++ rigMsg.toList
    if repairs4 ≠ [] then ⟨o4, repairs4, errors, true⟩
    else if errors ≠ [] then ⟨o4, repairs4, errors, false⟩
    else ⟨o4, repairs4, errors, true⟩

/-- The one configuration (excluded by the amended idempotence claim) in
    which the first repair run skips the editability pass: a system-flagged
    override that already has a nonempty editable-property list. -/
def sysTrapped (o : Obj) : Bool :=
  match o.override_library with
  | some ov => ov.is_system_override == some true && !ov.properties.isEmpty
  | none => false

mutual
/-- Well-formedness of the host data: every object's custom-property keys
    are distinct, as Python dict keys are. -/
def idWF : Obj → Bool
  | .mk _ _ _ _ idp ch => (idp.map Prod.fst).Nodup && idWFList ch

/-- `idWF` over a child list. -/
def idWFList : List Obj → Bool
  | [] => true
  | c :: cs => idWF c && idWFList cs
end

/-- A character that can neither continue the literal of pattern `p` nor a
    digit run: a match of `p` can never cross from preceding text into such
    a character. -/
def blockedChar (p : VPat) (c : Char) : Prop :=
  (∀ pr ∈ p.lit, c ≠ pr.1 ∧ c ≠ pr.2) ∧ isDigitC c = false

/-- The head of `s`, if any, is blocked for pattern `p`. -/
def blockedHead (p : VPat) (s : Chars) : Prop :=
  match s with
  | [] => True
  | c :: _ => blockedChar p c

/-! ### State-only view of the repair pipeline (for the idempotence claim) -/

/-- The state effect of the `SYSTEM_OVERRIDE` repair on the run that
    diagnoses it: a `some true` system flag is reset to `some false`;
    any other object is untouched (the issue is only emitted when
    `is_system_override == True`). -/
def sysSet (o : Obj) : Obj :=
  match o with
  | .mk t ovr pose rna idp ch =>
    match ovr with
    | some ov =>
      if ov.is_system_override = some true then
        .mk t (some { ov with is_system_override := some false }) pose rna idp ch
      else .mk t (some ov) pose rna idp ch
    | none => .mk t none pose rna idp ch

/-- The state effect of the armature pass: `_repair_armature` runs exactly
    when the object is an armature. -/
def armStage (o : Obj) : Obj :=
  if o.otype = "ARMATURE" then (repairArmature o).1 else o

/-- The state reached by one repair run outside the `sysTrapped`
    configuration: editability saturation, then the system-flag reset,
    then the armature unlock, then the rig-UI reference fix. -/
def repairState (env : HostEnv) (o : Obj) : Obj :=
  match o.override_library with
  | none => o
  | some _ => (repairRigUi env (armStage (sysSet (maeObj o).1))).1

mutual
/-- Editability saturation: every override node reachable by
    `process_object` already holds all the `rna_path`s the pass would
    attempt to add (a node without an override stops the recursion, as
    `process_object` returns before visiting its children). -/
def satB : Obj → Bool
  | .mk t ovr pose rna _ ch =>
    match ovr with
    | none => true
    | some ov =>
      (objAddList t pose rna).all (fun p => decide (p ∈ ov.properties)) &&
        satBList ch

/-- `satB` over a child list. -/
def satBList : List Obj → Bool
  | [] => true
  | c :: cs => satB c && satBList cs
end

/-! ## Theorems -/

theorem isDigitC_digitChar (n : Nat) : isDigitC (digitChar n) = true := by
  unfold digitChar
  split <;> decide

theorem toDecimalAux_digits :
    ∀ fuel n, ∀ c ∈ toDecimalAux fuel n, isDigitC c = true := by
  intro fuel
  induction fuel with
  | zero => intro n c hc; simp [toDecimalAux] at hc
  | succ fuel ih =>
    intro n c hc
    unfold toDecimalAux at hc
    by_cases h : n < 10
    · simp [h] at hc
      subst hc; exact isDigitC_digitChar n
    · simp [h, List.mem_append] at hc
      rcases hc with hc | hc
      · exact ih _ c hc
      · subst hc; exact isDigitC_digitChar _

theorem toDecimalAux_ne_nil (fuel n : Nat) : toDecimalAux (fuel + 1) n ≠ [] := by
  unfold toDecimalAux
  by_cases h : n < 10 <;> simp [h]

theorem digitsVal_append_singleton (xs : Chars) (c : Char) :
    digitsVal (xs ++ [c]) = 10 * digitsVal xs + (c.toNat - 48) := by
  simp [digitsVal, List.foldl_append]
  omega

theorem charToDigit_digitChar : ∀ m, m < 10 → (digitChar m).toNat - 48 = m := by
  decide

theorem digitsVal_toDecimalAux :
    ∀ fuel n, n < fuel → digitsVal (toDecimalAux fuel n) = n := by
  intro fuel
  induction fuel with
  | zero => intro n h; omega
  | succ fuel ih =>
    intro n h
    unfold toDecimalAux
    by_cases h10 : n < 10
    · simp [h10, digitsVal]
      have := charToDigit_digitChar n h10
      omega
    · simp only [h10, if_false]
      rw [digitsVal_append_singleton]
      have hdiv : n / 10 < fuel := by
        have h1 : n / 10 < n := Nat.div_lt_self (by omega) (by omega)
        omega
      rw [ih _ hdiv, charToDigit_digitChar _ (Nat.mod_lt n (by omega))]
      omega

theorem digitsVal_toDecimal (n : Nat) : digitsVal (toDecimal n) = n :=
  digitsVal_toDecimalAux (n + 1) n (Nat.lt_succ_self n)

theorem digitsVal_cons_zero (l : Chars) : digitsVal ('0' :: l) = digitsVal l := by
  simp [digitsVal]

theorem digitsVal_padTwo (n : Nat) : digitsVal (padTwo n) = n := by
  unfold padTwo
  by_cases h : n < 10 <;> simp [h, digitsVal_cons_zero, digitsVal_toDecimal]

theorem toDecimal_ne_nil (n : Nat) : toDecimal n ≠ [] :=
  toDecimalAux_ne_nil n n

theorem toDecimal_digits (n : Nat) : ∀ c ∈ toDecimal n, isDigitC c = true :=
  toDecimalAux_digits (n + 1) n

theorem padTwo_length (n : Nat) : 2 ≤ (padTwo n).length := by
  unfold padTwo
  by_cases h : n < 10
  · simp [h, toDecimal, toDecimalAux]
  · simp only [h, if_false]
    unfold toDecimal toDecimalAux
    simp only [h, if_false]
    rcases n with _ | m
    · omega
    · have := toDecimalAux_ne_nil m ((m + 1) / 10)
      simp [List.length_append]
      have : (toDecimalAux (m + 1) ((m + 1) / 10)).length ≠ 0 := by
        simpa [List.length_eq_zero] using this
      omega

theorem padTwo_digits (n : Nat) : ∀ c ∈ padTwo n, isDigitC c = true := by
  unfold padTwo
  by_cases h : n < 10 <;> simp [h]
  · exact ⟨by decide, toDecimal_digits n⟩
  · exact toDecimal_digits n

theorem padTwo_ne_nil (n : Nat) : padTwo n ≠ [] := by
  unfold padTwo
  by_cases h : n < 10 <;> simp [h, toDecimal_ne_nil]

theorem digit_not_sep (c : Char) (h : isDigitC c = true) : isSepC c = false := by
  by_cases h1 : c = '.'
  · subst h1; exact absurd h (by decide)
  by_cases h2 : c = '_'
  · subst h2; exact absurd h (by decide)
  by_cases h3 : c = '-'
  · subst h3; exact absurd h (by decide)
  simp [isSepC, h1, h2, h3]

theorem takeWhile_append_blocked (d : Char → Bool) (r E : Chars)
    (hE : ∀ c t, E = c :: t → d c = false) :
    (r ++ E).takeWhile d = r.takeWhile d := by
  induction r with
  | nil =>
    simp only [List.nil_append, List.takeWhile_nil]
    cases E with
    | nil => rfl
    | cons c t => simp [List.takeWhile_cons, hE c t rfl]
  | cons a r ih =>
    simp only [List.cons_append, List.takeWhile_cons]
    by_cases ha : d a <;> simp [ha, ih]

theorem takeWhile_all_append (d : Char → Bool) (D E : Chars)
    (hD : ∀ c ∈ D, d c = true) (hE : ∀ c t, E = c :: t → d c = false) :
    (D ++ E).takeWhile d = D := by
  induction D with
  | nil =>
    simpa using takeWhile_append_blocked d [] E hE
  | cons a D ih =>
    have ha := hD a (by simp)
    simp only [List.cons_append, List.takeWhile_cons, ha, if_true]
    rw [ih (fun c hc => hD c (by simp [hc]))]

theorem matchLitL_append (lit : List (Char × Char)) :
    ∀ (w E X : Chars),
    (∀ c t, E = c :: t → ∀ pr ∈ lit, c ≠ pr.1 ∧ c ≠ pr.2) →
    (∀ c t, X = c :: t → ∀ pr ∈ lit, c ≠ pr.1 ∧ c ≠ pr.2) →
    (∃ r, matchLitL lit (w ++ E) = some (r ++ E) ∧ matchLitL lit (w ++ X) = some (r ++ X)) ∨
    (matchLitL lit (w ++ E) = none ∧ matchLitL lit (w ++ X) = none) := by
  induction lit with
  | nil =>
    intro w E X _ _
    exact Or.inl ⟨w, rfl, rfl⟩
  | cons pr ls ih =>
    intro w E X hE hX
    cases w with
    | nil =>
      refine Or.inr ⟨?_, ?_⟩
      · cases E with
        | nil => rfl
        | cons c t =>
          have hc := hE c t rfl pr (by simp)
          simp [matchLitL, hc.1, hc.2]
      · cases X with
        | nil => rfl
        | cons c t =>
          have hc := hX c t rfl pr (by simp)
          simp [matchLitL, hc.1, hc.2]
    | cons a w' =>
      by_cases ha : a = pr.1 ∨ a = pr.2
      · have hcond : (a = pr.1 || a = pr.2) = true := by
          rcases ha with h | h <;> simp [h]
        have hE' : ∀ c t, E = c :: t → ∀ q ∈ ls, c ≠ q.1 ∧ c ≠ q.2 :=
          fun c t het q hq => hE c t het q (by simp [hq])
        have hX' : ∀ c t, X = c :: t → ∀ q ∈ ls, c ≠ q.1 ∧ c ≠ q.2 :=
          fun c t hxt q hq => hX c t hxt q (by simp [hq])
        rcases ih w' E X hE' hX' with ⟨r, h1, h2⟩ | ⟨h1, h2⟩
        · exact Or.inl ⟨r, by simp [matchLitL, hcond, h1], by simp [matchLitL, hcond, h2]⟩
        · exact Or.inr ⟨by simp [matchLitL, hcond, h1], by simp [matchLitL, hcond, h2]⟩
      · have hcond : (a = pr.1 || a = pr.2) = false := by
          simp only [Bool.or_eq_false_iff, decide_eq_false_iff_not]
          exact ⟨fun h => ha (Or.inl h), fun h => ha (Or.inr h)⟩
        exact Or.inr ⟨by simp [matchLitL, hcond], by simp [matchLitL, hcond]⟩

theorem matchAtL_none_of_sep (p : VPat) (c : Char) (rest : Chars)
    (h : p.sepOk c = false) : matchAtL p (c :: rest) = none := by
  simp [matchAtL, h]

theorem matchAt_transfer (p : VPat) (hnd : p.needDot = false) (u E X : Chars)
    (hu : u ≠ []) (hbE : blockedHead p E) (hbX : blockedHead p X)
    (hE : matchAtL p (u ++ E) = none) : matchAtL p (u ++ X) = none := by
  cases u with
  | nil => exact absurd rfl hu
  | cons c u' =>
    by_cases hsep : p.sepOk c
    · have hlitE : ∀ x t, E = x :: t → ∀ pr ∈ p.lit, x ≠ pr.1 ∧ x ≠ pr.2 := by
        intro x t hxt pr hpr
        rw [hxt] at hbE
        exact hbE.1 pr hpr
      have hlitX : ∀ x t, X = x :: t → ∀ pr ∈ p.lit, x ≠ pr.1 ∧ x ≠ pr.2 := by
        intro x t hxt pr hpr
        rw [hxt] at hbX
        exact hbX.1 pr hpr
      have hdE : ∀ x t, E = x :: t → isDigitC x = false := by
        intro x t hxt
        rw [hxt] at hbE
        exact hbE.2
      have hdX : ∀ x t, X = x :: t → isDigitC x = false := by
        intro x t hxt
        rw [hxt] at hbX
        exact hbX.2
      rcases matchLitL_append p.lit u' E X hlitE hlitX with ⟨r, h1, h2⟩ | ⟨h1, h2⟩
      · by_cases hds : (r.takeWhile isDigitC).isEmpty
        · simp only [List.cons_append] at h2 ⊢
          simp [matchAtL, hsep, h2, takeWhile_append_blocked isDigitC r X hdX, hds]
        · exfalso
          simp only [List.cons_append] at hE h1
          simp [matchAtL, hsep, h1, takeWhile_append_blocked isDigitC r E hdE,
            hds, hnd] at hE
      · simp only [List.cons_append] at h2 ⊢
        simp [matchAtL, hsep, h2]
    · simp only [List.cons_append]
      exact matchAtL_none_of_sep p c (u' ++ X) (by simpa using hsep)

theorem matchAtL_token (p : VPat) (hnd : p.needDot = false) (c : Char) (w D E : Chars)
    (hsep : p.sepOk c = true) (hlit : matchLitL p.lit (w ++ (D ++ E)) = some (D ++ E))
    (hD : D ≠ []) (hDd : ∀ x ∈ D, isDigitC x = true)
    (hEd : ∀ x t, E = x :: t → isDigitC x = false) :
    matchAtL p (c :: (w ++ (D ++ E))) = some (digitsVal D, 1 + p.lit.length + D.length) := by
  have hds : (D ++ E).takeWhile isDigitC = D := takeWhile_all_append isDigitC D E hDd hEd
  have hne : D.isEmpty = false := by
    cases D with
    | nil => exact absurd rfl hD
    | cons a D' => rfl
  simp [matchAtL, hsep, hlit, hds, hne, hnd]

theorem searchPatL_eq_none_iff (p : VPat) (s : Chars) :
    searchPatL p s = none ↔ ∀ t, t <:+ s → matchAtL p t = none := by
  induction s with
  | nil =>
    constructor
    · intro _ t ht
      rw [List.suffix_nil.mp ht]
      rfl
    · intro _; rfl
  | cons c rest ih =>
    constructor
    · intro h t ht
      rcases List.suffix_cons_iff.mp ht with rfl | ht'
      · cases hm : matchAtL p (c :: rest) with
        | none => exact hm ▸ rfl
        | some v =>
          simp only [searchPatL, hm] at h
          exact Option.noConfusion h
      · cases hm : matchAtL p (c :: rest) with
        | none =>
          simp only [searchPatL, hm] at h
          exact ih.mp h t ht'
        | some v =>
          simp only [searchPatL, hm] at h
          exact Option.noConfusion h
    · intro h
      have hm : matchAtL p (c :: rest) = none := h _ (by rfl)
      simp only [searchPatL, hm]
      exact ih.mpr fun t ht => h t (List.suffix_cons_iff.mpr (Or.inr ht))

theorem searchPatL_append (p : VPat) (x y : Chars)
    (h : ∀ u, u ≠ [] → u <:+ x → matchAtL p (u ++ y) = none) :
    searchPatL p (x ++ y) = searchPatL p y := by
  induction x with
  | nil => rfl
  | cons c x' ih =>
    have hm : matchAtL p ((c :: x') ++ y) = none :=
      h (c :: x') (by simp) (by rfl)
    simp only [List.cons_append] at hm ⊢
    simp only [searchPatL, hm]
    exact ih fun u hu hux => h u hu (List.suffix_cons_iff.mpr (Or.inr hux))

theorem suffix_append_cases {α : Type} (t x y : List α) (h : t <:+ x ++ y) :
    t <:+ y ∨ ∃ u, u <:+ x ∧ u ≠ [] ∧ t = u ++ y := by
  induction x with
  | nil => exact Or.inl (by simpa using h)
  | cons c x' ih =>
    rw [List.cons_append] at h
    rcases List.suffix_cons_iff.mp h with rfl | h'
    · exact Or.inr ⟨c :: x', by rfl, by simp, by simp⟩
    · rcases ih h' with h'' | ⟨u, hu, hne, rfl⟩
      · exact Or.inl h''
      · exact Or.inr ⟨u, List.suffix_cons_iff.mpr (Or.inr hu), hne, rfl⟩

theorem append_suffix_append {α : Type} (u B E : List α) (h : u <:+ B) :
    u ++ E <:+ B ++ E := by
  rcases h with ⟨pre, rfl⟩
  exact ⟨pre, by simp⟩

theorem extract_none_iff (f : Chars) :
    extract_versionL f = none ↔
      searchPatL patV (basenameL f) = none ∧ searchPatL patVer (basenameL f) = none ∧
      searchPatL patVersion (basenameL f) = none ∧
      searchPatL patDotV (basenameL f) = none ∧
      searchPatL patDashV (basenameL f) = none := by
  cases h1 : searchPatL patV (basenameL f) <;>
  cases h2 : searchPatL patVer (basenameL f) <;>
  cases h3 : searchPatL patVersion (basenameL f) <;>
  cases h4 : searchPatL patDotV (basenameL f) <;>
  cases h5 : searchPatL patDashV (basenameL f) <;>
  simp [extract_versionL, VERSION_PATTERNS, List.findSome?_cons, List.findSome?_nil,
    h1, h2, h3, h4, h5]

theorem extract_of_patV (f : Chars) (v : Nat)
    (h : searchPatL patV (basenameL f) = some v) : extract_versionL f = some v := by
  simp [extract_versionL, VERSION_PATTERNS, List.findSome?_cons, h]

theorem extract_of_patVer (f : Chars) (v : Nat)
    (h1 : searchPatL patV (basenameL f) = none)
    (h2 : searchPatL patVer (basenameL f) = some v) : extract_versionL f = some v := by
  simp [extract_versionL, VERSION_PATTERNS, List.findSome?_cons, h1, h2]

theorem extract_of_patVersion (f : Chars) (v : Nat)
    (h1 : searchPatL patV (basenameL f) = none)
    (h2 : searchPatL patVer (basenameL f) = none)
    (h3 : searchPatL patVersion (basenameL f) = some v) : extract_versionL f = some v := by
  simp [extract_versionL, VERSION_PATTERNS, List.findSome?_cons, h1, h2, h3]

theorem gvp_mem (f : Chars) (r : Chars) (h : get_version_patternL f = some r) :
    r = ['_', 'v'] ∨ r = ['_', 'v', 'e', 'r'] ∨
    r = ['_', 'v', 'e', 'r', 's', 'i', 'o', 'n'] ∨ r = ['.', 'v'] ∨ r = ['-', 'v'] := by
  cases h1 : searchPatL patV (basenameL f) <;>
  cases h2 : searchPatL patVer (basenameL f) <;>
  cases h3 : searchPatL patVersion (basenameL f) <;>
  cases h4 : searchPatL patDotV (basenameL f) <;>
  cases h5 : searchPatL patDashV (basenameL f) <;>
  simp [get_version_patternL, VERSION_PATTERNS, List.findSome?_cons, List.findSome?_nil,
    h1, h2, h3, h4, h5] at h <;> tauto

theorem takeWhile_eq_self_of_all {α : Type} (d : α → Bool) (l : List α)
    (h : ∀ c ∈ l, d c = true) : l.takeWhile d = l := by
  induction l with
  | nil => rfl
  | cons a l ih =>
    rw [List.takeWhile_cons, if_pos (h a (by simp)), ih fun c hc => h c (by simp [hc])]

theorem basenameL_no_slash (s : Chars) (h : '/' ∉ s) : basenameL s = s := by
  unfold basenameL
  rw [takeWhile_eq_self_of_all _ _ ?_, List.reverse_reverse]
  intro c hc
  have : c ∈ s := List.mem_reverse.mp hc
  simp only [decide_eq_true_eq]
  intro hcs
  exact h (hcs ▸ this)

theorem mem_basenameL (s : Chars) (c : Char) (h : c ∈ basenameL s) : c ∈ s := by
  unfold basenameL at h
  have := List.mem_reverse.mp h
  have := (List.takeWhile_sublist _).mem this
  exact List.mem_reverse.mp this

theorem no_slash_basenameL (s : Chars) : '/' ∉ basenameL s := by
  intro h
  unfold basenameL at h
  have := List.mem_reverse.mp h
  have := List.mem_takeWhile_imp this
  simp at this

theorem mem_stripSlashesR (s : Chars) (c : Char) (h : c ∈ stripSlashesR s) : c ∈ s := by
  unfold stripSlashesR at h
  have := List.mem_reverse.mp h
  have := (List.dropWhile_sublist _).mem this
  exact List.mem_reverse.mp this

theorem mem_pathNameL (s : Chars) (c : Char) (h : c ∈ pathNameL s) : c ∈ s :=
  mem_stripSlashesR s c (mem_basenameL _ c h)

theorem no_slash_pathNameL (s : Chars) : '/' ∉ pathNameL s :=
  no_slash_basenameL _

theorem splitExtL_snd_shape (name : Chars) :
    (splitExtL name).2 = [] ∨ ∃ t, (splitExtL name).2 = '.' :: t := by
  unfold splitExtL
  dsimp only
  split_ifs <;> simp

theorem mem_splitExtL_fst (name : Chars) (c : Char) (h : c ∈ (splitExtL name).1) :
    c ∈ name := by
  unfold splitExtL at h
  dsimp only at h
  split at h
  · exact h
  · split at h
    · exact h
    · split at h
      · exact h
      · exact (List.take_sublist _ _).mem h

theorem mem_splitExtL_snd (name : Chars) (c : Char) (h : c ∈ (splitExtL name).2) :
    c = '.' ∨ c ∈ name := by
  unfold splitExtL at h
  dsimp only at h
  split at h
  · simp at h
  · split at h
    · simp at h
    · split at h
      · simp at h
      · simp only [List.mem_cons] at h
        rcases h with rfl | h
        · exact Or.inl rfl
        · have := List.mem_reverse.mp h
          have := (List.takeWhile_sublist _).mem this
          exact Or.inr (List.mem_reverse.mp this)

theorem no_slash_pathStemL (s : Chars) : '/' ∉ pathStemL s := by
  intro h
  exact no_slash_pathNameL s (mem_splitExtL_fst _ _ h)

theorem no_slash_pathSuffixL (s : Chars) : '/' ∉ pathSuffixL s := by
  intro h
  rcases mem_splitExtL_snd _ _ h with h' | h'
  · exact absurd h' (by decide)
  · exact no_slash_pathNameL s h'

theorem pathSuffixL_shape (s : Chars) :
    pathSuffixL s = [] ∨ ∃ t, pathSuffixL s = '.' :: t :=
  splitExtL_snd_shape (pathNameL s)

theorem mem_subPatAux (p : VPat) :
    ∀ fuel s c, c ∈ subPatAux p fuel s → c ∈ s := by
  intro fuel
  induction fuel with
  | zero => intro s c hc; exact hc
  | succ fuel ih =>
    intro s c hc
    cases s with
    | nil => simp [subPatAux] at hc
    | cons a rest =>
      unfold subPatAux at hc
      cases hm : matchAtL p (a :: rest) with
      | some vk =>
        rw [hm] at hc
        exact (List.drop_sublist _ _).mem (ih _ c hc)
      | none =>
        rw [hm] at hc
        rcases List.mem_cons.mp hc with rfl | hc'
        · simp
        · exact List.mem_cons.mpr (Or.inr (ih _ c hc'))

theorem mem_subPatL (p : VPat) (s : Chars) (c : Char) (h : c ∈ subPatL p s) : c ∈ s :=
  mem_subPatAux p s.length s c h

theorem get_base_nameL_eq (f : Chars) :
    get_base_nameL f =
      subPatL patDashV (subPatL patDotV (subPatL patVersion
        (subPatL patVer (subPatL patV (pathStemL f))))) := by
  simp [get_base_nameL, VERSION_PATTERNS]

theorem no_slash_get_base_nameL (f : Chars) : '/' ∉ get_base_nameL f := by
  intro h
  rw [get_base_nameL_eq] at h
  exact no_slash_pathStemL f
    (mem_subPatL _ _ _ (mem_subPatL _ _ _ (mem_subPatL _ _ _
      (mem_subPatL _ _ _ (mem_subPatL _ _ _ h)))))

theorem takeWhile_ne_self_reverse (nm : Chars) (h : '/' ∉ nm) :
    (nm.reverse.takeWhile (fun x => decide (x ≠ '/'))) = nm.reverse := by
  apply takeWhile_eq_self_of_all
  intro c hc
  have := List.mem_reverse.mp hc
  simp only [decide_eq_true_eq]
  intro hcs
  exact h (hcs ▸ this)

theorem basenameL_append_slash (par nm : Chars) (h : '/' ∉ nm) :
    basenameL (par ++ '/' :: nm) = nm := by
  unfold basenameL
  rw [List.reverse_append, List.reverse_cons, List.append_assoc]
  rw [takeWhile_append_blocked _ _ _ ?_]
  · rw [takeWhile_ne_self_reverse nm h, List.reverse_reverse]
  · intro c t hct
    injection hct with h1 _
    rw [← h1]
    simp

theorem basenameL_pathJoinL (par nm : Chars) (h : '/' ∉ nm) :
    basenameL (pathJoinL par nm) = nm := by
  unfold pathJoinL
  split_ifs with h0 h1
  · exact basenameL_no_slash nm h
  · unfold basenameL
    rw [List.reverse_append]
    rw [takeWhile_append_blocked _ _ _ ?_]
    · rw [takeWhile_ne_self_reverse nm h, List.reverse_reverse]
    · intro c t hct
      have : par.reverse.head? = some c := by rw [hct]; rfl
      rw [List.head?_reverse, h1] at this
      injection this with h2
      rw [← h2]
      simp
  · exact basenameL_append_slash par nm h

theorem sep_cases (c : Char) (h : isSepC c = true) : c = '.' ∨ c = '_' ∨ c = '-' := by
  simp only [isSepC, Bool.or_eq_true, decide_eq_true_eq] at h
  tauto

theorem blockedChar_patV_sep (c : Char) (h : isSepC c = true) : blockedChar patV c := by
  rcases sep_cases c h with rfl | rfl | rfl <;> exact ⟨by decide, by decide⟩

theorem blockedChar_patVer_sep (c : Char) (h : isSepC c = true) : blockedChar patVer c := by
  rcases sep_cases c h with rfl | rfl | rfl <;> exact ⟨by decide, by decide⟩

theorem blockedChar_patVersion_sep (c : Char) (h : isSepC c = true) :
    blockedChar patVersion c := by
  rcases sep_cases c h with rfl | rfl | rfl <;> exact ⟨by decide, by decide⟩

theorem blockedHead_of_shape (p : VPat) (E : Chars)
    (hE : E = [] ∨ ∃ t, E = '.' :: t) (hdot : blockedChar p '.') : blockedHead p E := by
  rcases hE with rfl | ⟨t, rfl⟩
  · trivial
  · exact hdot

theorem E_digit_blocked (E : Chars) (hE : E = [] ∨ ∃ t, E = '.' :: t) :
    ∀ x t, E = x :: t → isDigitC x = false := by
  rcases hE with rfl | ⟨t, rfl⟩
  · intro x t h; cases h
  · intro x t' h
    injection h with h1 _
    rw [← h1]
    decide

theorem matchAt_none_E_suffix (p : VPat) (B E : Chars)
    (hB : searchPatL p (B ++ E) = none) :
    ∀ t, t <:+ E → matchAtL p t = none := fun t ht =>
  (searchPatL_eq_none_iff p (B ++ E)).mp hB t (ht.trans ⟨B, rfl⟩)

theorem matchAt_none_B_region (p : VPat) (hnd : p.needDot = false) (B E X : Chars)
    (hbE : blockedHead p E) (hbX : blockedHead p X)
    (hB : searchPatL p (B ++ E) = none) :
    ∀ u, u ≠ [] → u <:+ B → matchAtL p (u ++ X) = none := fun u hu hsfx =>
  matchAt_transfer p hnd u E X hu hbE hbX
    ((searchPatL_eq_none_iff p (B ++ E)).mp hB (u ++ E) (append_suffix_append u B E hsfx))

theorem matchAt_none_DE (p : VPat) (B D E : Chars)
    (hB : searchPatL p (B ++ E) = none)
    (hDd : ∀ c ∈ D, isDigitC c = true)
    (hsepd : ∀ c, isDigitC c = true → p.sepOk c = false) :
    ∀ t, t <:+ D ++ E → matchAtL p t = none := by
  intro t ht
  rcases suffix_append_cases t D E ht with htE | ⟨u, hu, hne, rfl⟩
  · exact matchAt_none_E_suffix p B E hB t htE
  · cases u with
    | nil => exact absurd rfl hne
    | cons c u' =>
      have hc : c ∈ D := hu.subset (by simp)
      simp only [List.cons_append]
      exact matchAtL_none_of_sep p c _ (hsepd c (hDd c hc))

theorem patV_sep_digit : ∀ c, isDigitC c = true → patV.sepOk c = false :=
  fun c h => digit_not_sep c h

theorem patVer_sep_digit : ∀ c, isDigitC c = true → patVer.sepOk c = false :=
  fun c h => digit_not_sep c h

theorem patVersion_sep_digit : ∀ c, isDigitC c = true → patVersion.sepOk c = false :=
  fun c h => digit_not_sep c h

theorem searchV_winner (B D E : Chars) (c : Char) (hc : isSepC c = true)
    (hB : searchPatL patV (B ++ E) = none)
    (hD : D ≠ []) (hDd : ∀ x ∈ D, isDigitC x = true)
    (hE : E = [] ∨ ∃ t, E = '.' :: t) :
    searchPatL patV (B ++ (c :: 'v' :: (D ++ E))) = some (digitsVal D) := by
  have hEd := E_digit_blocked E hE
  have hbE : blockedHead patV E := blockedHead_of_shape patV E hE ⟨by decide, by decide⟩
  have hbX : blockedHead patV (c :: 'v' :: (D ++ E)) := blockedChar_patV_sep c hc
  rw [searchPatL_append patV B _ (matchAt_none_B_region patV rfl B E _ hbE hbX hB)]
  have htok := matchAtL_token patV rfl c ['v'] D E hc
    (by simp [patV, matchLitL]) hD hDd hEd
  simp only [List.singleton_append] at htok
  simp [searchPatL, htok]

theorem searchVer_winner (B D E : Chars)
    (hB : searchPatL patVer (B ++ E) = none)
    (hD : D ≠ []) (hDd : ∀ x ∈ D, isDigitC x = true)
    (hE : E = [] ∨ ∃ t, E = '.' :: t) :
    searchPatL patVer (B ++ ('_' :: 'v' :: 'e' :: 'r' :: (D ++ E))) = some (digitsVal D) := by
  have hEd := E_digit_blocked E hE
  have hbE : blockedHead patVer E := blockedHead_of_shape patVer E hE ⟨by decide, by decide⟩
  have hbX : blockedHead patVer ('_' :: 'v' :: 'e' :: 'r' :: (D ++ E)) :=
    blockedChar_patVer_sep '_' (by decide)
  rw [searchPatL_append patVer B _ (matchAt_none_B_region patVer rfl B E _ hbE hbX hB)]
  have htok := matchAtL_token patVer rfl '_' ['v', 'e', 'r'] D E (by decide)
    (by simp [patVer, matchLitL]) hD hDd hEd
  simp only [List.cons_append, List.nil_append] at htok
  simp [searchPatL, htok]

theorem searchVersion_winner (B D E : Chars)
    (hB : searchPatL patVersion (B ++ E) = none)
    (hD : D ≠ []) (hDd : ∀ x ∈ D, isDigitC x = true)
    (hE : E = [] ∨ ∃ t, E = '.' :: t) :
    searchPatL patVersion
      (B ++ ('_' :: 'v' :: 'e' :: 'r' :: 's' :: 'i' :: 'o' :: 'n' :: (D ++ E))) =
      some (digitsVal D) := by
  have hEd := E_digit_blocked E hE
  have hbE : blockedHead patVersion E := blockedHead_of_shape patVersion E hE ⟨by decide, by decide⟩
  have hbX : blockedHead patVersion
      ('_' :: 'v' :: 'e' :: 'r' :: 's' :: 'i' :: 'o' :: 'n' :: (D ++ E)) :=
    blockedChar_patVersion_sep '_' (by decide)
  rw [searchPatL_append patVersion B _
    (matchAt_none_B_region patVersion rfl B E _ hbE hbX hB)]
  have htok := matchAtL_token patVersion rfl '_' ['v', 'e', 'r', 's', 'i', 'o', 'n'] D E
    (by decide) (by simp [patVersion, matchLitL]) hD hDd hEd
  simp only [List.cons_append, List.nil_append] at htok
  simp [searchPatL, htok]

theorem searchV_none_ver (B D E : Chars)
    (hB : searchPatL patV (B ++ E) = none)
    (hDd : ∀ x ∈ D, isDigitC x = true)
    (hE : E = [] ∨ ∃ t, E = '.' :: t) :
    searchPatL patV (B ++ ('_' :: 'v' :: 'e' :: 'r' :: (D ++ E))) = none := by
  have hbE : blockedHead patV E := blockedHead_of_shape patV E hE ⟨by decide, by decide⟩
  have hbX : blockedHead patV ('_' :: 'v' :: 'e' :: 'r' :: (D ++ E)) :=
    blockedChar_patV_sep '_' (by decide)
  apply (searchPatL_eq_none_iff patV _).mpr
  intro t ht
  rcases suffix_append_cases t B _ ht with htok | ⟨u, hu, hne, rfl⟩
  · rcases List.suffix_cons_iff.mp htok with rfl | htok
    · simp [matchAtL, matchLitL, patV, List.takeWhile_cons]
      decide
    rcases List.suffix_cons_iff.mp htok with rfl | htok
    · exact matchAtL_none_of_sep patV 'v' _ (by decide)
    rcases List.suffix_cons_iff.mp htok with rfl | htok
    · exact matchAtL_none_of_sep patV 'e' _ (by decide)
    rcases List.suffix_cons_iff.mp htok with rfl | htok
    · exact matchAtL_none_of_sep patV 'r' _ (by decide)
    · exact matchAt_none_DE patV B D E hB hDd patV_sep_digit t htok
  · exact matchAt_none_B_region patV rfl B E _ hbE hbX hB u hne hu

theorem searchV_none_version (B D E : Chars)
    (hB : searchPatL patV (B ++ E) = none)
    (hDd : ∀ x ∈ D, isDigitC x = true)
    (hE : E = [] ∨ ∃ t, E = '.' :: t) :
    searchPatL patV
      (B ++ ('_' :: 'v' :: 'e' :: 'r' :: 's' :: 'i' :: 'o' :: 'n' :: (D ++ E))) = none := by
  have hbE : blockedHead patV E := blockedHead_of_shape patV E hE ⟨by decide, by decide⟩
  have hbX : blockedHead patV
      ('_' :: 'v' :: 'e' :: 'r' :: 's' :: 'i' :: 'o' :: 'n' :: (D ++ E)) :=
    blockedChar_patV_sep '_' (by decide)
  apply (searchPatL_eq_none_iff patV _).mpr
  intro t ht
  rcases suffix_append_cases t B _ ht with htok | ⟨u, hu, hne, rfl⟩
  · rcases List.suffix_cons_iff.mp htok with rfl | htok
    · simp [matchAtL, matchLitL, patV, List.takeWhile_cons]
      decide
    rcases List.suffix_cons_iff.mp htok with rfl | htok
    · exact matchAtL_none_of_sep patV 'v' _ (by decide)
    rcases List.suffix_cons_iff.mp htok with rfl | htok
    · exact matchAtL_none_of_sep patV 'e' _ (by decide)
    rcases List.suffix_cons_iff.mp htok with rfl | htok
    · exact matchAtL_none_of_sep patV 'r' _ (by decide)
    rcases List.suffix_cons_iff.mp htok with rfl | htok
    · exact matchAtL_none_of_sep patV 's' _ (by decide)
    rcases List.suffix_cons_iff.mp htok with rfl | htok
    · exact matchAtL_none_of_sep patV 'i' _ (by decide)
    rcases List.suffix_cons_iff.mp htok with rfl | htok
    · exact matchAtL_none_of_sep patV 'o' _ (by decide)
    rcases List.suffix_cons_iff.mp htok with rfl | htok
    · exact matchAtL_none_of_sep patV 'n' _ (by decide)
    · exact matchAt_none_DE patV B D E hB hDd patV_sep_digit t htok
  · exact matchAt_none_B_region patV rfl B E _ hbE hbX hB u hne hu

theorem searchVer_none_version (B D E : Chars)
    (hB : searchPatL patVer (B ++ E) = none)
    (hDd : ∀ x ∈ D, isDigitC x = true)
    (hE : E = [] ∨ ∃ t, E = '.' :: t) :
    searchPatL patVer
      (B ++ ('_' :: 'v' :: 'e' :: 'r' :: 's' :: 'i' :: 'o' :: 'n' :: (D ++ E))) = none := by
  have hbE : blockedHead patVer E := blockedHead_of_shape patVer E hE ⟨by decide, by decide⟩
  have hbX : blockedHead patVer
      ('_' :: 'v' :: 'e' :: 'r' :: 's' :: 'i' :: 'o' :: 'n' :: (D ++ E)) :=
    blockedChar_patVer_sep '_' (by decide)
  apply (searchPatL_eq_none_iff patVer _).mpr
  intro t ht
  rcases suffix_append_cases t B _ ht with htok | ⟨u, hu, hne, rfl⟩
  · rcases List.suffix_cons_iff.mp htok with rfl | htok
    · simp [matchAtL, matchLitL, patVer, List.takeWhile_cons]
      decide
    rcases List.suffix_cons_iff.mp htok with rfl | htok
    · exact matchAtL_none_of_sep patVer 'v' _ (by decide)
    rcases List.suffix_cons_iff.mp htok with rfl | htok
    · exact matchAtL_none_of_sep patVer 'e' _ (by decide)
    rcases List.suffix_cons_iff.mp htok with rfl | htok
    · exact matchAtL_none_of_sep patVer 'r' _ (by decide)
    rcases List.suffix_cons_iff.mp htok with rfl | htok
    · exact matchAtL_none_of_sep patVer 's' _ (by decide)
    rcases List.suffix_cons_iff.mp htok with rfl | htok
    · exact matchAtL_none_of_sep patVer 'i' _ (by decide)
    rcases List.suffix_cons_iff.mp htok with rfl | htok
    · exact matchAtL_none_of_sep patVer 'o' _ (by decide)
    rcases List.suffix_cons_iff.mp htok with rfl | htok
    · exact matchAtL_none_of_sep patVer 'n' _ (by decide)
    · exact matchAt_none_DE patVer B D E hB hDd patVer_sep_digit t htok
  · exact matchAt_none_B_region patVer rfl B E _ hbE hbX hB u hne hu

theorem extract_versionL_eq_of_basename (x nm : Chars) (hb : basenameL x = nm)
    (hnm : '/' ∉ nm) : extract_versionL x = extract_versionL nm := by
  simp [extract_versionL, hb, basenameL_no_slash nm hnm]

theorem extract_build_chain (B D E T : Chars)
    (hT : T = ['_', 'v'] ∨ T = ['_', 'v', 'e', 'r'] ∨
      T = ['_', 'v', 'e', 'r', 's', 'i', 'o', 'n'] ∨ T = ['.', 'v'] ∨ T = ['-', 'v'])
    (hBslash : '/' ∉ B) (hEslash : '/' ∉ E)
    (hnone : extract_versionL (B ++ E) = none)
    (hD : D ≠ []) (hDd : ∀ x ∈ D, isDigitC x = true)
    (hE : E = [] ∨ ∃ t, E = '.' :: t) :
    extract_versionL (B ++ (T ++ (D ++ E))) = some (digitsVal D) := by
  have hBE : basenameL (B ++ E) = B ++ E := by
    apply basenameL_no_slash
    intro hmem
    rcases List.mem_append.mp hmem with hm | hm
    · exact hBslash hm
    · exact hEslash hm
  rw [extract_none_iff, hBE] at hnone
  obtain ⟨h1, h2, h3, h4, h5⟩ := hnone
  have hDslash : '/' ∉ D := by
    intro hm
    have := hDd '/' hm
    exact absurd this (by decide)
  have hbase : ∀ (Tc : Chars), '/' ∉ Tc →
      basenameL (B ++ (Tc ++ (D ++ E))) = B ++ (Tc ++ (D ++ E)) := by
    intro Tc hTc
    apply basenameL_no_slash
    intro hmem
    rcases List.mem_append.mp hmem with hm | hm
    · exact hBslash hm
    rcases List.mem_append.mp hm with hm | hm
    · exact hTc hm
    rcases List.mem_append.mp hm with hm | hm
    · exact hDslash hm
    · exact hEslash hm
  rcases hT with rfl | rfl | rfl | rfl | rfl
  · apply extract_of_patV
    rw [hbase _ (by decide)]
    exact searchV_winner B D E '_' (by decide) h1 hD hDd hE
  · apply extract_of_patVer
    · rw [hbase _ (by decide)]
      exact searchV_none_ver B D E h1 hDd hE
    · rw [hbase _ (by decide)]
      exact searchVer_winner B D E h2 hD hDd hE
  · apply extract_of_patVersion
    · rw [hbase _ (by decide)]
      exact searchV_none_version B D E h1 hDd hE
    · rw [hbase _ (by decide)]
      exact searchVer_none_version B D E h2 hDd hE
    · rw [hbase _ (by decide)]
      exact searchVersion_winner B D E h3 hD hDd hE
  · apply extract_of_patV
    rw [hbase _ (by decide)]
    exact searchV_winner B D E '.' (by decide) h1 hD hDd hE
  · apply extract_of_patV
    rw [hbase _ (by decide)]
    exact searchV_winner B D E '-' (by decide) h1 hD hDd hE

/-- C1 (amended): for every base filepath whose version-stripped base name,
    concatenated with the extension, contains no version token, and every
    version number `n`, extracting the version from the built path returns
    exactly `n`; the version token is zero-padded to a minimum width of 2
    digits and its numeric value is `n` (3-or-more-digit versions are not
    truncated). -/
theorem c1_roundtrip (p : String) (n : Nat)
    (h : extract_versionL (get_base_nameL p.data ++ pathSuffixL p.data) = none) :
    extract_version (build_version_path p n) = some n ∧
    2 ≤ (padTwo n).length ∧ digitsVal (padTwo n) = n := by
  refine ⟨?_, padTwo_length n, digitsVal_padTwo n⟩
  have hT : (get_version_patternL p.data).getD ['_', 'v'] = ['_', 'v'] ∨
      (get_version_patternL p.data).getD ['_', 'v'] = ['_', 'v', 'e', 'r'] ∨
      (get_version_patternL p.data).getD ['_', 'v'] =
        ['_', 'v', 'e', 'r', 's', 'i', 'o', 'n'] ∨
      (get_version_patternL p.data).getD ['_', 'v'] = ['.', 'v'] ∨
      (get_version_patternL p.data).getD ['_', 'v'] = ['-', 'v'] := by
    cases hg : get_version_patternL p.data with
    | none => simp
    | some r => simpa using gvp_mem p.data r hg
  set B := get_base_nameL p.data with hB
  set E := pathSuffixL p.data with hE
  set T := (get_version_patternL p.data).getD ['_', 'v'] with hTdef
  have hTslash : '/' ∉ T := by
    rcases hT with h' | h' | h' | h' | h' <;> rw [h'] <;> decide
  have hnm_slash : '/' ∉ (B ++ T ++ padTwo n) ++ E := by
    intro hmem
    rcases List.mem_append.mp hmem with hm | hm
    · rcases List.mem_append.mp hm with hm' | hm'
      · rcases List.mem_append.mp hm' with hm'' | hm''
        · exact no_slash_get_base_nameL p.data hm''
        · exact hTslash hm''
      · exact absurd (padTwo_digits n '/' hm') (by decide)
    · exact no_slash_pathSuffixL p.data hm
  have hbuild : (build_version_path p n).data =
      pathJoinL (pathParentL p.data) ((B ++ T ++ padTwo n) ++ E) := rfl
  have hx : extract_version (build_version_path p n) =
      extract_versionL ((B ++ T ++ padTwo n) ++ E) := by
    unfold extract_version
    rw [hbuild]
    exact extract_versionL_eq_of_basename _ _
      (basenameL_pathJoinL _ _ hnm_slash) hnm_slash
  rw [hx]
  have hassoc : (B ++ T ++ padTwo n) ++ E = B ++ (T ++ (padTwo n ++ E)) := by
    simp [List.append_assoc]
  rw [hassoc]
  rw [extract_build_chain B (padTwo n) E T hT (no_slash_get_base_nameL p.data)
    (no_slash_pathSuffixL p.data) h (padTwo_ne_nil n) (padTwo_digits n)
    (pathSuffixL_shape p.data)]
  rw [digitsVal_padTwo n]

/-- C1 counterexample: for `a._v1v2.blend`, stripping the version tokens
    splices the residue `a.v2`, so the path built for version 5 is
    `a.v2_v05.blend`, whose extracted version is 2, not 5. -/
theorem c1_counterexample :
    extract_version (build_version_path "a._v1v2.blend" 5) = some 2 ∧
    extract_version (build_version_path "a._v1v2.blend" 5) ≠ some 5 :=
  ⟨rfl, by decide⟩

/-- C1 witness: the amended round-trip at `char_v01.blend` with the
    three-digit version 123. -/
theorem c1_roundtrip_witness :
    extract_version (build_version_path "char_v01.blend" 123) = some 123 ∧
    2 ≤ (padTwo 123).length ∧ digitsVal (padTwo 123) = 123 :=
  c1_roundtrip "char_v01.blend" 123 (by rfl)

theorem manyLockedMsg_ne_constraintsMsg (l n k : Nat) :
    manyLockedMsg l n ≠ constraintsMsg k := by
  intro h
  have hh := congrArg (fun s => s.data.head?) h
  dsimp only at hh
  have hL : (manyLockedMsg l n).data.head? = some 'M' := by
    simp [manyLockedMsg, natStr]
  have hR : ∃ c, (constraintsMsg k).data.head? = some c ∧ isDigitC c = true := by
    cases htd : toDecimal k with
    | nil => exact absurd htd (toDecimal_ne_nil k)
    | cons c rest =>
      refine ⟨c, ?_, toDecimal_digits k c (by rw [htd]; simp)⟩
      simp [constraintsMsg, natStr, htd]
  rcases hR with ⟨c, hc1, hc2⟩
  rw [hL, hc1] at hh
  injection hh with hh
  rw [← hh] at hc2
  exact absurd hc2 (by decide)

/-- C2 (amended): for every armature override with pose data, the health
    check counts as locked exactly those joints with at least one lock flag
    set in any of the three lock categories, and emits the "many joints
    locked" warning if and only if that locked-count exceeds 50% of the
    total joint count. -/
theorem c2_locked_count_and_warning (bones : List PoseBone) :
    (check_armature_status (some bones)).2.locked_bone_count =
      some (bones.filter boneAnyLocked).length ∧
    (manyLockedMsg (bones.filter boneAnyLocked).length bones.length ∈
        (check_armature_status (some bones)).1 ↔
      2 * (bones.filter boneAnyLocked).length > bones.length) := by
  constructor
  · simp [check_armature_status]
  · by_cases hl : 2 * (bones.filter boneAnyLocked).length > bones.length
    · simp [check_armature_status, hl]
    · simp only [check_armature_status, hl, if_false]
      constructor
      · intro hmem
        simp only [List.nil_append] at hmem
        by_cases hc : (((bones.flatMap fun b => b.constraints).filter constraintIssue).length) > 0
        · simp only [hc, if_true, List.mem_singleton] at hmem
          exact absurd hmem (manyLockedMsg_ne_constraintsMsg _ _ _)
        · simp [hc] at hmem
      · intro hgt
        exact hgt.elim

/-- C2 counterexample: a single joint locked only on the X axis of location
    is counted as locked by the code (triggering the warning), while the
    claim's all-axes criterion counts zero locked joints (so no warning
    should be emitted under the claim). -/
theorem c2_counterexample :
    manyLockedMsg 1 1 ∈
      (check_armature_status (some [⟨"joint", ⟨true, false, false⟩,
        ⟨false, false, false⟩, ⟨false, false, false⟩, []⟩])).1 ∧
    2 * (([(⟨"joint", ⟨true, false, false⟩, ⟨false, false, false⟩,
        ⟨false, false, false⟩, []⟩ : PoseBone)]).filter boneFullyLocked).length ≤
      ([(⟨"joint", ⟨true, false, false⟩, ⟨false, false, false⟩,
        ⟨false, false, false⟩, []⟩ : PoseBone)]).length := by
  constructor
  · decide
  · decide

theorem check_armature_status_opc (pose : Option (List PoseBone)) :
    (check_armature_status pose).2.override_property_count = none := by
  cases pose <;> rfl

/-- C4: for every override object whose override reference is null, the
    health check reports `is_healthy = false` with the reference-missing
    ERROR issue present, and the editability, rig and script checks still
    run and accumulate into the same report (the warnings are exactly those
    of the editability and armature checks, and the info mapping records the
    property count and the rig-UI flag). -/
theorem c4_null_reference (env : HostEnv) (o : Obj) (ov : Override)
    (h1 : o.override_library = some ov) (h2 : ov.reference = none) :
    (check_override_health env o).is_healthy = false ∧
    "Override reference is missing" ∈ (check_override_health env o).issues ∧
    (check_override_health env o).warnings =
      (if ov.properties.length = 0 then
        ["No override properties - may not be editable"] else []) ++
      (if o.otype = "ARMATURE" then (check_armature_status o.pose).1 else []) ∧
    (check_override_health env o).info.override_property_count =
      some ov.properties.length ∧
    (check_override_health env o).info.has_rig_ui =
      some (idGet o.id_props "proref_rig_ui").isSome := by
  have hlib : check_library_status env ov = ([], {}) := by
    rw [check_library_status, h2]
  refine ⟨?_, ?_, ?_, ?_, ?_⟩
  · simp [check_override_health, h1, h2, hlib]
  · simp [check_override_health, h1, h2, hlib]
  · simp only [check_override_health, h1, h2, hlib]
    by_cases hp : ov.properties.length = 0 <;>
      by_cases ha : o.otype = "ARMATURE" <;> simp [hp, ha]
  · simp only [check_override_health, h1, h2, hlib]
    by_cases ha : o.otype = "ARMATURE" <;>
      simp [ha, Info.update, check_armature_status_opc]
  · simp only [check_override_health, h1, h2, hlib]
    by_cases ha : o.otype = "ARMATURE" <;> simp [ha, Info.update]

theorem sorted_getLast_max :
    ∀ (l : List (String × Option Nat)),
      l.Sorted (fun a b => versionKey a ≤ versionKey b) →
      ∀ x, l.getLast? = some x → ∀ e ∈ l, versionKey e ≤ versionKey x := by
  intro l
  induction l with
  | nil => intro _ x hx; cases hx
  | cons a l ih =>
    intro hs x hx e he
    cases l with
    | nil =>
      simp only [List.getLast?_singleton, Option.some.injEq] at hx
      rcases List.mem_singleton.mp he with rfl
      rw [hx]
    | cons b t =>
      rw [List.getLast?_cons_cons] at hx
      have hs' := (List.sorted_cons.mp hs).2
      have ha := (List.sorted_cons.mp hs).1
      rcases List.mem_cons.mp he with rfl | he'
      · have hxmem : x ∈ b :: t := by
          rcases List.getLast?_eq_some_iff.mp hx with ⟨l', hl'⟩
          rw [hl']
          simp
        exact ha x hxmem
      · exact ih hs' x hx e he'

/-- C5: for every filepath with a detected version pattern,
    `find_all_versions` returns its entries sorted ascending by numeric
    version, every entry carries exactly the version extracted from its
    path (entries without an extractable version are excluded), and
    `get_latest_version` returns the entry with the highest numeric version,
    falling back to `(input, none)` when the set is empty. -/
theorem c5_sorted_and_latest (files : List String) (fe de : Bool) (fp : String)
    (patT : Chars) (hp : get_version_patternL fp.data = some patT) :
    (find_all_versions files fe de fp).Sorted
      (fun a b => versionKey a ≤ versionKey b) ∧
    (∀ e ∈ find_all_versions files fe de fp,
      extract_version e.1 = e.2 ∧ e.2.isSome) ∧
    (find_all_versions files fe de fp = [] →
      get_latest_version files fe de fp = (fp, none)) ∧
    (∀ x, (find_all_versions files fe de fp).getLast? = some x →
      get_latest_version files fe de fp = x ∧
      x ∈ find_all_versions files fe de fp ∧
      ∀ e ∈ find_all_versions files fe de fp, versionKey e ≤ versionKey x) := by
  haveI instTot : IsTotal (String × Option Nat)
      (fun a b => versionKey a ≤ versionKey b) := ⟨fun a b => Nat.le_total _ _⟩
  haveI instTrans : IsTrans (String × Option Nat)
      (fun a b => versionKey a ≤ versionKey b) := ⟨fun _ _ _ => Nat.le_trans⟩
  have hsorted : (find_all_versions files fe de fp).Sorted
      (fun a b => versionKey a ≤ versionKey b) := by
    unfold find_all_versions
    cases hfd : (!fe && !de)
    · rw [hp]
      exact List.sorted_insertionSort _ _
    · exact List.sorted_nil
  have hmem : ∀ e ∈ find_all_versions files fe de fp,
      extract_version e.1 = e.2 ∧ e.2.isSome := by
    intro e he
    unfold find_all_versions at he
    cases hfd : (!fe && !de) with
    | true => rw [hfd] at he; simp at he
    | false =>
      rw [hfd] at he
      simp only [Bool.false_eq_true, if_false, hp] at he
      rw [List.mem_insertionSort] at he
      rcases List.mem_filterMap.mp he with ⟨f, _, hf2⟩
      rcases Option.map_eq_some'.mp hf2 with ⟨v, hv1, hv2⟩
      rw [← hv2]
      exact ⟨hv1, rfl⟩
  refine ⟨hsorted, hmem, ?_, ?_⟩
  · intro h0
    simp [get_latest_version, h0]
  · intro x hx
    refine ⟨by simp [get_latest_version, hx], ?_, ?_⟩
    · rcases List.getLast?_eq_some_iff.mp hx with ⟨l', hl'⟩
      rw [hl']
      simp
    · exact sorted_getLast_max _ hsorted x hx

/-- C5 witness: the specification's example — `hero_v01.ext`, `hero_v10.ext`
    and `hero_v02.ext` in one directory yield versions in order 1, 2, 10,
    and the latest entry is the `v10` file, not the lexicographically last
    one. -/
theorem c5_sorted_and_latest_witness :
    get_version_patternL "hero_v01.ext".data = some ['_', 'v'] ∧
    find_all_versions ["hero_v01.ext", "hero_v10.ext", "hero_v02.ext"] true true
      "hero_v01.ext" =
      [("hero_v01.ext", some 1), ("hero_v02.ext", some 2), ("hero_v10.ext", some 10)] ∧
    get_latest_version ["hero_v01.ext", "hero_v10.ext", "hero_v02.ext"] true true
      "hero_v01.ext" = ("hero_v10.ext", some 10) ∧
    (∀ e ∈ find_all_versions ["hero_v01.ext", "hero_v10.ext", "hero_v02.ext"] true true
        "hero_v01.ext", extract_version e.1 = e.2 ∧ e.2.isSome) := by
  refine ⟨by decide, by decide, by decide, ?_⟩
  exact (c5_sorted_and_latest ["hero_v01.ext", "hero_v10.ext", "hero_v02.ext"]
    true true "hero_v01.ext" ['_', 'v'] (by decide)).2.1

/-- C6: for every filepath in which no version-naming pattern matches the
    filename, `extract_version` returns none and `has_newer_version` returns
    false, whatever sibling files exist in the directory. -/
theorem c6_no_pattern_no_newer (fp : String)
    (hp : get_version_patternL fp.data = none) :
    extract_version fp = none ∧
    ∀ (files : List String) (fe de : Bool),
      has_newer_version files fe de fp = false := by
  have hx : extract_versionL fp.data = none := by
    rw [extract_none_iff]
    revert hp
    cases h1 : searchPatL patV (basenameL fp.data) <;>
    cases h2 : searchPatL patVer (basenameL fp.data) <;>
    cases h3 : searchPatL patVersion (basenameL fp.data) <;>
    cases h4 : searchPatL patDotV (basenameL fp.data) <;>
    cases h5 : searchPatL patDashV (basenameL fp.data) <;>
    simp [get_version_patternL, VERSION_PATTERNS, List.findSome?_cons,
      List.findSome?_nil, h1, h2, h3, h4, h5]
  refine ⟨hx, ?_⟩
  intro files fe de
  unfold has_newer_version
  rw [hx]

/-- C6 witness: `noversion.blend` has no version token, and even with a
    higher-numbered sibling in the directory no newer version is
    reported. -/
theorem c6_no_pattern_no_newer_witness :
    extract_version "noversion.blend" = none ∧
    has_newer_version ["noversion_v99.blend", "noversion.blend"] true true
      "noversion.blend" = false := by
  have h := c6_no_pattern_no_newer "noversion.blend" (by decide)
  exact ⟨h.1, h.2 ["noversion_v99.blend", "noversion.blend"] true true⟩

theorem autoFix_step_partition (env : FsEnv) (ro : Bool)
    (st : List LibEntry × FixStats × List String) (l : LibEntry)
    (h : st.2.1.total = st.2.1.already_ok + st.2.1.fixed + st.2.1.missing) :
    (autoFixStep env ro st l).2.1.total =
      (autoFixStep env ro st l).2.1.already_ok +
      (autoFixStep env ro st l).2.1.fixed + (autoFixStep env ro st l).2.1.missing := by
  obtain ⟨acc, stats, reloads⟩ := st
  simp only at h
  unfold autoFixStep
  by_cases h1 : env.fsExists (env.abspath l.filepath)
  · simp [h1]; omega
  · by_cases h2 : env.fsExists (env.expand l.filepath)
    · by_cases h3 : ro
      · simp [h1, h2, h3]; omega
      · by_cases h4 : env.reloadOk (env.expand l.filepath)
        · simp [h1, h2, h3, h4]; omega
        · simp [h1, h2, h3, h4]; omega
    · simp [h1, h2]; omega

theorem autoFix_foldl_partition (env : FsEnv) (ro : Bool) :
    ∀ (libs : List LibEntry) (st : List LibEntry × FixStats × List String),
    st.2.1.total = st.2.1.already_ok + st.2.1.fixed + st.2.1.missing →
    (libs.foldl (autoFixStep env ro) st).2.1.total =
      (libs.foldl (autoFixStep env ro) st).2.1.already_ok +
      (libs.foldl (autoFixStep env ro) st).2.1.fixed +
      (libs.foldl (autoFixStep env ro) st).2.1.missing := by
  intro libs
  induction libs with
  | nil => intro st h; exact h
  | cons l ls ih =>
    intro st h
    exact ih (autoFixStep env ro st l) (autoFix_step_partition env ro st l h)

/-- C10: the statistics returned by `auto_fix_broken_links` partition the
    libraries — each library lands in exactly one of `already_ok`, `fixed`
    or `missing`, so `total = already_ok + fixed + missing` always holds. -/
theorem c10_stats_partition (env : FsEnv) (report_only : Bool) (libs : List LibEntry) :
    (auto_fix_broken_links env report_only libs).2.1.total =
      (auto_fix_broken_links env report_only libs).2.1.already_ok +
      (auto_fix_broken_links env report_only libs).2.1.fixed +
      (auto_fix_broken_links env report_only libs).2.1.missing :=
  autoFix_foldl_partition env report_only libs ([], ⟨0, 0, 0, 0⟩, []) rfl

theorem autoFix_report_only_foldl (env : FsEnv) :
    ∀ (libs : List LibEntry) (acc : List LibEntry) (stats : FixStats)
      (reloads : List String),
    libs.foldl (autoFixStep env true) (acc, stats, reloads) =
      (acc ++ libs,
       ⟨stats.total + libs.length,
        stats.fixed + (libs.filter fun l => !env.fsExists (env.abspath l.filepath) &&
          env.fsExists (env.expand l.filepath)).length,
        stats.missing + (libs.filter fun l => !env.fsExists (env.abspath l.filepath) &&
          !env.fsExists (env.expand l.filepath)).length,
        stats.already_ok + (libs.filter fun l =>
          env.fsExists (env.abspath l.filepath)).length⟩,
       reloads) := by
  intro libs
  induction libs with
  | nil =>
    intro acc stats reloads
    cases stats
    simp
  | cons l ls ih =>
    intro acc stats reloads
    rw [List.foldl_cons]
    by_cases h1 : env.fsExists (env.abspath l.filepath)
    · have hstep : autoFixStep env true (acc, stats, reloads) l =
          (acc ++ [l], ⟨stats.total + 1, stats.fixed, stats.missing,
            stats.already_ok + 1⟩, reloads) := by
        simp [autoFixStep, h1]
      rw [hstep, ih]
      simp [List.filter_cons, h1]
      omega
    · by_cases h2 : env.fsExists (env.expand l.filepath)
      · have hstep : autoFixStep env true (acc, stats, reloads) l =
            (acc ++ [l], ⟨stats.total + 1, stats.fixed + 1, stats.missing,
              stats.already_ok⟩, reloads) := by
          simp [autoFixStep, h1, h2]
        rw [hstep, ih]
        simp [List.filter_cons, h1, h2]
        omega
      · have hstep : autoFixStep env true (acc, stats, reloads) l =
            (acc ++ [l], ⟨stats.total + 1, stats.fixed, stats.missing + 1,
              stats.already_ok⟩, reloads) := by
          simp [autoFixStep, h1, h2]
        rw [hstep, ih]
        simp [List.filter_cons, h1, h2]
        omega

/-- C8: with `report_only = true`, `auto_fix_broken_links` modifies no
    library filepath and performs no reload, while the returned statistics
    still report total, fixed, missing and already-ok counts. -/
theorem c8_report_only_pure (env : FsEnv) (libs : List LibEntry) :
    (auto_fix_broken_links env true libs).1 = libs ∧
    (auto_fix_broken_links env true libs).2.2 = [] ∧
    (auto_fix_broken_links env true libs).2.1 =
      ⟨libs.length,
       (libs.filter fun l => !env.fsExists (env.abspath l.filepath) &&
         env.fsExists (env.expand l.filepath)).length,
       (libs.filter fun l => !env.fsExists (env.abspath l.filepath) &&
         !env.fsExists (env.expand l.filepath)).length,
       (libs.filter fun l => env.fsExists (env.abspath l.filepath)).length⟩ := by
  unfold auto_fix_broken_links
  rw [autoFix_report_only_foldl env libs [] ⟨0, 0, 0, 0⟩ []]
  simp

theorem digitsVal_padThree (k : Nat) : digitsVal (padThree k) = k := by
  unfold padThree
  by_cases h1 : k < 10
  · simp [h1, digitsVal_cons_zero, digitsVal_toDecimal]
  · by_cases h2 : k < 100 <;>
      simp [h1, h2, digitsVal_cons_zero, digitsVal_toDecimal]

theorem str_data_append (a b : String) : (a ++ b).data = a.data ++ b.data := rfl

theorem suffixName_injective (base : String) (j k : Nat)
    (h : suffixName base j = suffixName base k) : j = k := by
  have hd := congrArg String.data h
  unfold suffixName at hd
  rw [str_data_append, str_data_append, str_data_append, str_data_append] at hd
  have hp : (String.mk (padThree j)).data = (String.mk (padThree k)).data := by
    rw [List.append_assoc, List.append_assoc] at hd
    exact List.append_cancel_left (List.append_cancel_left hd)
  have : padThree j = padThree k := hp
  calc j = digitsVal (padThree j) := (digitsVal_padThree j).symm
    _ = digitsVal (padThree k) := by rw [this]
    _ = k := digitsVal_padThree k

theorem exists_free_suffix (base : String) (existing : List String) :
    ∃ j, 1 ≤ j ∧ j < 1 + (existing.length + 1) ∧ suffixName base j ∉ existing := by
  by_contra hall
  push_neg at hall
  have hsub : (List.range' 1 (existing.length + 1)).map (suffixName base) ⊆ existing := by
    intro s hs
    rcases List.mem_map.mp hs with ⟨j, hj, rfl⟩
    rcases List.mem_range'_1.mp hj with ⟨hj1, hj2⟩
    exact hall j hj1 (by omega)
  have hnodup : ((List.range' 1 (existing.length + 1)).map (suffixName base)).Nodup := by
    refine List.Nodup.map ?_ (List.nodup_range' 1 (existing.length + 1))
    intro a b hab
    exact suffixName_injective base a b hab
  have hlen := (hnodup.subperm hsub).length_le
  simp at hlen

theorem uniqueNameAux_spec (base : String) (existing : List String) :
    ∀ fuel k, (∃ j, k ≤ j ∧ j < k + fuel ∧ suffixName base j ∉ existing) →
      ∃ m, uniqueNameAux base existing fuel k = suffixName base m ∧ k ≤ m ∧
        suffixName base m ∉ existing ∧
        ∀ j, k ≤ j → j < m → suffixName base j ∈ existing := by
  intro fuel
  induction fuel with
  | zero =>
    intro k ⟨j, hj1, hj2, _⟩
    omega
  | succ fuel ih =>
    intro k ⟨j, hj1, hj2, hj3⟩
    by_cases hk : suffixName base k ∈ existing
    · have hex : ∃ j, k + 1 ≤ j ∧ j < (k + 1) + fuel ∧ suffixName base j ∉ existing := by
        refine ⟨j, ?_, by omega, hj3⟩
        rcases Nat.eq_or_lt_of_le hj1 with rfl | hlt
        · exact absurd hk hj3
        · omega
      rcases ih (k + 1) hex with ⟨m, hm1, hm2, hm3, hm4⟩
      refine ⟨m, ?_, by omega, hm3, ?_⟩
      · simp [uniqueNameAux, hk, hm1]
      · intro i hi1 hi2
        rcases Nat.eq_or_lt_of_le hi1 with rfl | hlt
        · exact hk
        · exact hm4 i (by omega) hi2
    · exact ⟨k, by simp [uniqueNameAux, hk], Nat.le_refl k, hk, fun i h1 h2 => by omega⟩

/-- C9: the unique-name generator returns a name not in the existing set —
    the base name itself when it is free, otherwise the base name with a
    numeric suffix formed from the lowest unused positive integer. -/
theorem c9_unique_name (base : String) (existing : List String) :
    get_unique_name base existing ∉ existing ∧
    (base ∉ existing → get_unique_name base existing = base) ∧
    (base ∈ existing → ∃ k, 1 ≤ k ∧
      get_unique_name base existing = suffixName base k ∧
      suffixName base k ∉ existing ∧
      ∀ j, 1 ≤ j → j < k → suffixName base j ∈ existing) := by
  by_cases hb : base ∈ existing
  · have hex := exists_free_suffix base existing
    rcases uniqueNameAux_spec base existing (existing.length + 1) 1 hex with
      ⟨m, hm1, hm2, hm3, hm4⟩
    have hval : get_unique_name base existing = suffixName base m := by
      simp [get_unique_name, hb, hm1]
    refine ⟨?_, fun hc => absurd hb hc, fun _ => ⟨m, hm2, hval, hm3, hm4⟩⟩
    rw [hval]
    exact hm3
  · refine ⟨?_, fun _ => by simp [get_unique_name, hb], fun hc => absurd hc hb⟩
    simp [get_unique_name, hb]

/-- C9 witness: with `rig` and its first two suffixed variants taken, the
    generator returns the lowest unused suffix `rig.003`. -/
theorem c9_unique_name_witness :
    get_unique_name "rig" ["rig", "rig.001", "rig.002"] ∉ ["rig", "rig.001", "rig.002"] ∧
    ("rig" ∈ ["rig", "rig.001", "rig.002"] → ∃ k, 1 ≤ k ∧
      get_unique_name "rig" ["rig", "rig.001", "rig.002"] = suffixName "rig" k ∧
      suffixName "rig" k ∉ ["rig", "rig.001", "rig.002"] ∧
      ∀ j, 1 ≤ j → j < k → suffixName "rig" j ∈ ["rig", "rig.001", "rig.002"]) :=
  ⟨(c9_unique_name "rig" ["rig", "rig.001", "rig.002"]).1,
   (c9_unique_name "rig" ["rig", "rig.001", "rig.002"]).2.2⟩

theorem libLookup_setPath_self (libs : List LibEntry) (n p : String) :
    libLookup (libSetPath libs n p) n = (libLookup libs n).map (fun _ => p) := by
  induction libs with
  | nil => rfl
  | cons l ls ih =>
    by_cases h : l.name = n
    · simp [libSetPath, libLookup, List.find?_cons, h]
    · simp only [libSetPath, h, if_false]
      simp only [libLookup, List.find?_cons] at ih ⊢
      simp only [h, decide_eq_true_eq, if_neg h]
      exact ih

theorem libLookup_setPath_other (libs : List LibEntry) (n p m : String)
    (h : m ≠ n) : libLookup (libSetPath libs n p) m = libLookup libs m := by
  have h' : ¬(n = m) := fun he => h he.symm
  induction libs with
  | nil => rfl
  | cons l ls ih =>
    by_cases hn : l.name = n
    · have hm : ¬(l.name = m) := by rw [hn]; exact h'
      simp [libSetPath, libLookup, List.find?_cons, hn, hm, h']
    · by_cases hm : l.name = m
      · simp [libSetPath, libLookup, List.find?_cons, hn, hm, h, h']
      · simp only [libSetPath, hn, if_false]
        simp only [libLookup, List.find?_cons] at ih ⊢
        simp only [hm, decide_eq_true_eq, if_neg hm]
        exact ih

theorem relink_fold_spec (env : RelinkEnv) (search replace : String) :
    ∀ (sel : List SelEntry) (libs libs' : List LibEntry) (s f s' f' : Nat),
      (sel.map (fun ld => ld.library_name)).Nodup →
      sel.foldl (relinkStep env search replace) (libs, s, f) = (libs', s', f') →
      (∀ ld ∈ sel, libLookup libs' ld.library_name =
        (libLookup libs ld.library_name).map (relinkUpd search replace)) ∧
      (∀ m, (∀ ld ∈ sel, ld.library_name ≠ m) → libLookup libs' m = libLookup libs m) ∧
      s' = s + (sel.filter (relinkSucc env search replace libs)).length ∧
      f' = f + (sel.filter (relinkFail env search replace libs)).length := by
  intro sel
  induction sel with
  | nil =>
    intro libs libs' s f s' f' _ hfold
    simp only [List.foldl_nil, Prod.mk.injEq] at hfold
    obtain ⟨h1, h2, h3⟩ := hfold
    subst h1; subst h2; subst h3
    exact ⟨by simp, fun m _ => rfl, by simp, by simp⟩
  | cons ld rest ih =>
    intro libs libs' s f s' f' hnd hfold
    have hnd1 : ∀ ld' ∈ rest, ld'.library_name ≠ ld.library_name := by
      intro ld' hld' heq
      exact (List.nodup_cons.mp hnd).1 (List.mem_map.mpr ⟨ld', hld', heq⟩)
    have hnd2 : (rest.map (fun ld => ld.library_name)).Nodup :=
      (List.nodup_cons.mp hnd).2
    rw [List.foldl_cons] at hfold
    cases hl : libLookup libs ld.library_name with
    | none =>
      have hstep : relinkStep env search replace (libs, s, f) ld = (libs, s, f + 1) := by
        simp [relinkStep, hl]
      rw [hstep] at hfold
      obtain ⟨ha, hb, hc, hd⟩ := ih libs libs' s (f + 1) s' f' hnd2 hfold
      refine ⟨?_, ?_, ?_, ?_⟩
      · intro ld' hld'
        rcases List.mem_cons.mp hld' with rfl | hld'
        · rw [hb ld'.library_name (fun x hx => hnd1 x hx), hl]
          rfl
        · exact ha ld' hld'
      · intro m hm
        exact hb m fun x hx => hm x (List.mem_cons_of_mem _ hx)
      · rw [hc]
        simp [List.filter_cons, relinkSucc, hl]
      · rw [hd]
        simp only [List.filter_cons, relinkFail, hl]
        simp
        omega
    | some pth =>
      by_cases hcont : containsSubL search.data pth.data
      · have hsetlibs : ∀ ld' ∈ rest,
            libLookup (libSetPath libs ld.library_name
              (relinkNewPath search replace pth)) ld'.library_name =
            libLookup libs ld'.library_name :=
          fun ld' h => libLookup_setPath_other _ _ _ _ (hnd1 ld' h)
        have hfiltS :
            rest.filter (relinkSucc env search replace
              (libSetPath libs ld.library_name (relinkNewPath search replace pth))) =
            rest.filter (relinkSucc env search replace libs) :=
          List.filter_congr fun x hx => by simp [relinkSucc, hsetlibs x hx]
        have hfiltF :
            rest.filter (relinkFail env search replace
              (libSetPath libs ld.library_name (relinkNewPath search replace pth))) =
            rest.filter (relinkFail env search replace libs) :=
          List.filter_congr fun x hx => by simp [relinkFail, hsetlibs x hx]
        by_cases hrel : env.reloadOk (relinkNewPath search replace pth)
        · simp only [relinkNewPath] at hrel
          have hstep : relinkStep env search replace (libs, s, f) ld =
              (libSetPath libs ld.library_name (relinkNewPath search replace pth),
               s + 1, f) := by
            simp [relinkStep, hl, hcont, hrel, relinkNewPath]
          rw [hstep] at hfold
          obtain ⟨ha, hb, hc, hd⟩ := ih _ libs' (s + 1) f s' f' hnd2 hfold
          refine ⟨?_, ?_, ?_, ?_⟩
          · intro ld' hld'
            rcases List.mem_cons.mp hld' with rfl | hld'
            · rw [hb ld'.library_name (fun x hx => hnd1 x hx),
                libLookup_setPath_self, hl]
              simp [relinkUpd, hcont]
            · rw [ha ld' hld', hsetlibs ld' hld']
          · intro m hm
            rw [hb m fun x hx => hm x (List.mem_cons_of_mem _ hx)]
            exact libLookup_setPath_other _ _ _ _ fun he => hm ld (by simp) he.symm
          · rw [hc, hfiltS]
            simp only [List.filter_cons, relinkSucc, relinkNewPath, hl, hcont, hrel]
            simp
            omega
          · rw [hd, hfiltF]
            simp only [List.filter_cons, relinkFail, relinkNewPath, hl, hcont, hrel]
            simp
        · simp only [relinkNewPath] at hrel
          have hstep : relinkStep env search replace (libs, s, f) ld =
              (libSetPath libs ld.library_name (relinkNewPath search replace pth),
               s, f + 1) := by
            simp [relinkStep, hl, hcont, hrel, relinkNewPath]
          rw [hstep] at hfold
          obtain ⟨ha, hb, hc, hd⟩ := ih _ libs' s (f + 1) s' f' hnd2 hfold
          refine ⟨?_, ?_, ?_, ?_⟩
          · intro ld' hld'
            rcases List.mem_cons.mp hld' with rfl | hld'
            · rw [hb ld'.library_name (fun x hx => hnd1 x hx),
                libLookup_setPath_self, hl]
              simp [relinkUpd, hcont]
            · rw [ha ld' hld', hsetlibs ld' hld']
          · intro m hm
            rw [hb m fun x hx => hm x (List.mem_cons_of_mem _ hx)]
            exact libLookup_setPath_other _ _ _ _ fun he => hm ld (by simp) he.symm
          · rw [hc, hfiltS]
            simp only [List.filter_cons, relinkSucc, relinkNewPath, hl, hcont, hrel]
            simp
          · rw [hd, hfiltF]
            simp only [List.filter_cons, relinkFail, relinkNewPath, hl, hcont, hrel]
            simp
            omega
      · have hstep : relinkStep env search replace (libs, s, f) ld = (libs, s, f) := by
          simp [relinkStep, hl, hcont]
        rw [hstep] at hfold
        obtain ⟨ha, hb, hc, hd⟩ := ih libs libs' s f s' f' hnd2 hfold
        refine ⟨?_, ?_, ?_, ?_⟩
        · intro ld' hld'
          rcases List.mem_cons.mp hld' with rfl | hld'
          · rw [hb ld'.library_name (fun x hx => hnd1 x hx), hl]
            simp [relinkUpd, hcont]
          · exact ha ld' hld'
        · intro m hm
          exact hb m fun x hx => hm x (List.mem_cons_of_mem _ hx)
        · rw [hc]
          simp [List.filter_cons, relinkSucc, hl, hcont]
        · rw [hd]
          simp [List.filter_cons, relinkFail, hl, hcont]

/-- C7: during a batch relink, every selected library whose stored path does
    not contain the search string keeps its path and is counted neither as
    a success nor as a failure, and every selected library whose path does
    contain it has the search substring literally replaced; the reported
    tallies count exactly the rewritten-and-reloaded (success) and the
    unresolved-or-reload-failed (failure) rows. -/
theorem c7_batch_relink (env : RelinkEnv) (search replace : String)
    (settings : List SelEntry) (libs : List LibEntry)
    (hs : search ≠ "")
    (hsel : settings.filter (fun ld => ld.selected) ≠ [])
    (hnd : ((settings.filter (fun ld => ld.selected)).map
      (fun ld => ld.library_name)).Nodup) :
    ∃ libs' s f, batch_relink env search replace settings libs = some (libs', s, f) ∧
      (∀ ld ∈ settings.filter (fun ld => ld.selected),
        libLookup libs' ld.library_name =
          (libLookup libs ld.library_name).map (relinkUpd search replace)) ∧
      s = ((settings.filter (fun ld => ld.selected)).filter
        (relinkSucc env search replace libs)).length ∧
      f = ((settings.filter (fun ld => ld.selected)).filter
        (relinkFail env search replace libs)).length := by
  obtain ⟨⟨libs', s, f⟩, hfold⟩ :
      ∃ r, (settings.filter (fun ld => ld.selected)).foldl
        (relinkStep env search replace) (libs, 0, 0) = r := ⟨_, rfl⟩
  obtain ⟨ha, _, hc, hd⟩ := relink_fold_spec env search replace
    (settings.filter (fun ld => ld.selected)) libs libs' 0 0 s f hnd hfold
  refine ⟨libs', s, f, ?_, ha, by simpa using hc, by simpa using hd⟩
  simp only [batch_relink, hs, if_false]
  rw [if_neg (by simpa [List.isEmpty_iff] using hsel)]
  rw [hfold]

/-- C7 witness: the specification's scenario — a source on `S:\` is
    rewritten to `P:\` and reported as the one success, while a selected
    source lacking `S:\` keeps its path and is counted neither as success
    nor as failure. -/
theorem c7_batch_relink_witness :
    (∃ libs' s f,
      batch_relink ⟨fun _ => true⟩ "S:\\" "P:\\"
        [⟨"hero", true⟩, ⟨"other", true⟩]
        [⟨"hero", "S:\\chars\\hero_v01.blend"⟩, ⟨"other", "X:\\o.blend"⟩] =
        some (libs', s, f) ∧
      (∀ ld ∈ ([⟨"hero", true⟩, ⟨"other", true⟩] : List SelEntry).filter
          (fun ld => ld.selected),
        libLookup libs' ld.library_name =
          (libLookup [⟨"hero", "S:\\chars\\hero_v01.blend"⟩,
            ⟨"other", "X:\\o.blend"⟩] ld.library_name).map (relinkUpd "S:\\" "P:\\")) ∧
      s = ((([⟨"hero", true⟩, ⟨"other", true⟩] : List SelEntry).filter
        (fun ld => ld.selected)).filter (relinkSucc ⟨fun _ => true⟩ "S:\\" "P:\\"
          [⟨"hero", "S:\\chars\\hero_v01.blend"⟩, ⟨"other", "X:\\o.blend"⟩])).length ∧
      f = ((([⟨"hero", true⟩, ⟨"other", true⟩] : List SelEntry).filter
        (fun ld => ld.selected)).filter (relinkFail ⟨fun _ => true⟩ "S:\\" "P:\\"
          [⟨"hero", "S:\\chars\\hero_v01.blend"⟩, ⟨"other", "X:\\o.blend"⟩])).length) ∧
    relinkUpd "S:\\" "P:\\" "S:\\chars\\hero_v01.blend" = "P:\\chars\\hero_v01.blend" ∧
    relinkUpd "S:\\" "P:\\" "X:\\o.blend" = "X:\\o.blend" := by
  refine ⟨c7_batch_relink ⟨fun _ => true⟩ "S:\\" "P:\\"
    [⟨"hero", true⟩, ⟨"other", true⟩]
    [⟨"hero", "S:\\chars\\hero_v01.blend"⟩, ⟨"other", "X:\\o.blend"⟩]
    (by decide) (by decide) (by decide), by decide, by decide⟩

/-- C4 witness: a non-armature override with a null reference. -/
theorem c4_null_reference_witness :
    (check_override_health ⟨[], id, fun _ => true⟩
      (.mk "MESH" (some ⟨none, [], none⟩) none [] [] [])).is_healthy = false ∧
    "Override reference is missing" ∈
      (check_override_health ⟨[], id, fun _ => true⟩
        (.mk "MESH" (some ⟨none, [], none⟩) none [] [] [])).issues ∧
    (check_override_health ⟨[], id, fun _ => true⟩
      (.mk "MESH" (some ⟨none, [], none⟩) none [] [] [])).warnings =
      (if ([] : List String).length = 0 then
        ["No override properties - may not be editable"] else []) ++
      (if (Obj.mk "MESH" (some ⟨none, [], none⟩) none [] [] []).otype = "ARMATURE" then
        (check_armature_status (Obj.mk "MESH" (some ⟨none, [], none⟩)
          none [] [] []).pose).1 else []) ∧
    (check_override_health ⟨[], id, fun _ => true⟩
      (.mk "MESH" (some ⟨none, [], none⟩) none [] [] [])).info.override_property_count =
      some ([] : List String).length ∧
    (check_override_health ⟨[], id, fun _ => true⟩
      (.mk "MESH" (some ⟨none, [], none⟩) none [] [] [])).info.has_rig_ui =
      some (idGet (Obj.mk "MESH" (some ⟨none, [], none⟩)
        none [] [] []).id_props "proref_rig_ui").isSome :=
  c4_null_reference ⟨[], id, fun _ => true⟩
    (.mk "MESH" (some ⟨none, [], none⟩) none [] [] []) ⟨none, [], none⟩ rfl rfl

/-! ### C3: repair idempotence — structural induction and saturation -/

theorem obj_ind (motive : Obj → Prop)
    (h : ∀ t ovr pose rna idp ch, (∀ c ∈ ch, motive c) →
      motive (Obj.mk t ovr pose rna idp ch)) :
    ∀ o, motive o :=
  fun o =>
    @Obj.rec motive (fun l => ∀ c ∈ l, motive c) h
      (fun c hc => absurd hc (List.not_mem_nil c))
      (fun _ _ hhd htl c hc => by
        rcases List.mem_cons.mp hc with rfl | hc
        · exact hhd
        · exact htl c hc)
      o

theorem map_id_of_mem {α : Type} (f : α → α) :
    ∀ l : List α, (∀ x ∈ l, f x = x) → l.map f = l := by
  intro l
  induction l with
  | nil => intro _; rfl
  | cons a l ih =>
    intro hl
    simp only [List.map_cons, hl a (by simp)]
    rw [ih fun x hx => hl x (List.mem_cons_of_mem _ hx)]

theorem mem_addPath (P : List String) (p x : String) (hx : x ∈ P) :
    x ∈ addPath P p := by
  unfold addPath
  split
  · exact hx
  · exact List.mem_append_left _ hx

theorem self_mem_addPath (P : List String) (p : String) : p ∈ addPath P p := by
  unfold addPath
  split
  · assumption
  · exact List.mem_append_right _ (by simp)

theorem addPath_of_mem (P : List String) (p : String) (hp : p ∈ P) :
    addPath P p = P := by
  unfold addPath
  exact if_pos hp

theorem mem_foldl_addPath_mono (L : List String) :
    ∀ P x, x ∈ P → x ∈ L.foldl addPath P := by
  induction L with
  | nil => intro P x hx; exact hx
  | cons a L ih =>
    intro P x hx
    exact ih (addPath P a) x (mem_addPath P a x hx)

theorem mem_foldl_addPath (L : List String) :
    ∀ P x, x ∈ L → x ∈ L.foldl addPath P := by
  induction L with
  | nil => intro P x hx; exact absurd hx (List.not_mem_nil x)
  | cons a L ih =>
    intro P x hx
    rcases List.mem_cons.mp hx with rfl | hx
    · exact mem_foldl_addPath_mono L (addPath P x) x (self_mem_addPath P x)
    · exact ih (addPath P a) x hx

theorem foldl_addPath_of_subset (L : List String) :
    ∀ P, (∀ x ∈ L, x ∈ P) → L.foldl addPath P = P := by
  induction L with
  | nil => intro P _; rfl
  | cons a L ih =>
    intro P hL
    simp only [List.foldl_cons, addPath_of_mem P a (hL a (by simp))]
    exact ih P fun x hx => hL x (List.mem_cons_of_mem _ hx)

theorem maeList_fst : ∀ os : List Obj,
    (maeList os).1 = os.map (fun c => (maeObj c).1) := by
  intro os
  induction os with
  | nil => rfl
  | cons c cs ih =>
    simp only [maeList, List.map_cons]
    rw [← ih]

theorem satBList_iff : ∀ os : List Obj,
    (satBList os = true ↔ ∀ c ∈ os, satB c = true) := by
  intro os
  induction os with
  | nil => simp [satBList]
  | cons c cs ih =>
    simp only [satBList, Bool.and_eq_true, ih, List.mem_cons]
    constructor
    · rintro ⟨h1, h2⟩ x (rfl | hx)
      · exact h1
      · exact h2 x hx
    · intro h
      exact ⟨h c (Or.inl rfl), fun x hx => h x (Or.inr hx)⟩

theorem satB_maeObj : ∀ o : Obj, satB (maeObj o).1 = true := by
  refine obj_ind _ ?_
  intro t ovr pose rna idp ch ih
  cases ovr with
  | none => simp [maeObj, satB]
  | some ov =>
    rcases hml : maeList ch with ⟨ch2, m⟩
    simp only [maeObj, hml, satB, Bool.and_eq_true, List.all_eq_true,
      decide_eq_true_eq]
    refine ⟨fun p hp => mem_foldl_addPath _ _ p hp, ?_⟩
    have : ch2 = ch.map (fun c => (maeObj c).1) := by
      have := maeList_fst ch
      rw [hml] at this
      exact this
    subst this
    rw [satBList_iff]
    intro c hc
    rcases List.mem_map.mp hc with ⟨c0, hc0, rfl⟩
    exact ih c0 hc0

theorem maeObj_of_satB : ∀ o : Obj, satB o = true → (maeObj o).1 = o := by
  refine obj_ind _ ?_
  intro t ovr pose rna idp ch ih hsat
  cases ovr with
  | none => simp [maeObj]
  | some ov =>
    rcases hml : maeList ch with ⟨ch2, m⟩
    simp only [satB, Bool.and_eq_true, List.all_eq_true, decide_eq_true_eq]
      at hsat
    obtain ⟨hall, hch⟩ := hsat
    simp only [maeObj, hml]
    have hch2 : ch2 = ch := by
      have h0 := maeList_fst ch
      rw [hml] at h0
      rw [show ch2 = List.map (fun c => (maeObj c).1) ch from h0]
      exact map_id_of_mem _ ch fun c hc =>
        ih c hc ((satBList_iff ch).mp hch c hc)
    rw [hch2, foldl_addPath_of_subset _ _ hall]

theorem setIdProps_otype (a : Obj) (s : List (String × String)) :
    (a.setIdProps s).otype = a.otype := by cases a; rfl

theorem setIdProps_override (a : Obj) (s : List (String × String)) :
    (a.setIdProps s).override_library = a.override_library := by cases a; rfl

theorem setIdProps_pose (a : Obj) (s : List (String × String)) :
    (a.setIdProps s).pose = a.pose := by cases a; rfl

theorem satB_setIdProps (a : Obj) (s : List (String × String)) :
    satB (a.setIdProps s) = satB a := by cases a; rfl

theorem satB_sysSet (o : Obj) : satB (sysSet o) = satB o := by
  cases o with
  | mk t ovr pose rna idp ch =>
    cases ovr with
    | none => rfl
    | some ov =>
      simp only [sysSet]
      split <;> rfl

theorem bonePaths_unlockBone (b : PoseBone) :
    bonePaths (unlockBone b) = bonePaths b := by
  unfold unlockBone
  split <;> rfl

theorem flatMap_bonePaths_unlock :
    ∀ bs : List PoseBone,
      (bs.map unlockBone).flatMap bonePaths = bs.flatMap bonePaths := by
  intro bs
  induction bs with
  | nil => rfl
  | cons b bs ih =>
    simp only [List.map_cons, List.flatMap_cons, bonePaths_unlockBone, ih]

theorem objAddList_unlock (t : String) (rna : List RnaProp)
    (bs : List PoseBone) :
    objAddList t (some (bs.map unlockBone)) rna = objAddList t (some bs) rna := by
  unfold objAddList
  simp only [flatMap_bonePaths_unlock]

theorem satB_armStage (o : Obj) : satB (armStage o) = satB o := by
  cases o with
  | mk t ovr pose rna idp ch =>
    unfold armStage
    split
    · unfold repairArmature
      cases pose with
      | none => rfl
      | some bs =>
        simp only
        cases ovr with
        | none => rfl
        | some ov => simp only [satB, objAddList_unlock]
    · rfl

theorem satBList_updArmList (f : Obj → Obj) :
    ∀ l : List Obj, (∀ c ∈ l, satB (updArm f c) = satB c) →
      satBList (updArmList f l) = satBList l := by
  intro l
  induction l with
  | nil => intro _; rfl
  | cons c cs ih =>
    intro hl
    simp only [updArmList]
    split
    · simp only [satBList, hl c (by simp)]
    · simp only [satBList, ih fun x hx => hl x (List.mem_cons_of_mem _ hx)]

theorem satB_updArm (f : Obj → Obj) (hf : ∀ a : Obj, satB (f a) = satB a) :
    ∀ o : Obj, satB (updArm f o) = satB o := by
  refine obj_ind _ ?_
  intro t ovr pose rna idp ch ih
  unfold updArm
  split
  · exact hf _
  · cases ovr with
    | none => rfl
    | some ov => simp only [satB, satBList_updArmList f ch ih]

theorem updArm_otype (f : Obj → Obj) (hf : ∀ a : Obj, (f a).otype = a.otype)
    (o : Obj) : (updArm f o).otype = o.otype := by
  cases o; unfold updArm; split
  · exact hf _
  · rfl

theorem updArm_override (f : Obj → Obj)
    (hf : ∀ a : Obj, (f a).override_library = a.override_library)
    (o : Obj) : (updArm f o).override_library = o.override_library := by
  cases o; unfold updArm; split
  · exact hf _
  · rfl

theorem updArm_pose (f : Obj → Obj) (hf : ∀ a : Obj, (f a).pose = a.pose)
    (o : Obj) : (updArm f o).pose = o.pose := by
  cases o; unfold updArm; split
  · exact hf _
  · rfl

theorem rig_cases (env : HostEnv) (x : Obj) :
    (repairRigUi env x).1 = x ∨
      ∃ f : Obj → Obj, (∀ a : Obj, ∃ s, f a = a.setIdProps s) ∧
        (repairRigUi env x).1 = updArm f x := by
  rcases hfa : findArm x with _ | arm
  · simp [repairRigUi, hfa]
  · rcases hg : idGet arm.id_props "proref_rig_ui" with _ | sn
    · simp [repairRigUi, hfa, hg]
    · by_cases hemp : sn = ""
      · simp [repairRigUi, hfa, hg, hemp]
      · by_cases htex : sn ∈ env.texts
        · simp [repairRigUi, hfa, hg, hemp, htex]
        · rcases ho2 : idGet arm.id_props "proref_original_script" with _ | original
          · right
            refine ⟨fun a => a.setIdProps (idDel a.id_props "proref_rig_ui"),
              fun a => ⟨_, rfl⟩, ?_⟩
            simp [repairRigUi, hfa, hg, hemp, htex, ho2]
          · by_cases hcond : original ≠ "" ∧ original ∈ env.texts
            · right
              refine ⟨fun a =>
                  a.setIdProps (idSet a.id_props "proref_rig_ui" original),
                fun a => ⟨_, rfl⟩, ?_⟩
              simp [repairRigUi, hfa, hg, hemp, htex, ho2, hcond]
            · right
              refine ⟨fun a => a.setIdProps (idDel a.id_props "proref_rig_ui"),
                fun a => ⟨_, rfl⟩, ?_⟩
              simp [repairRigUi, hfa, hg, hemp, htex, ho2, hcond]

theorem unlockBone_idem (b : PoseBone) :
    unlockBone (unlockBone b) = unlockBone b := by
  by_cases hb : boneFullyLocked b = true
  · have h1 : unlockBone b =
        { b with lock_location := ⟨false, false, false⟩,
                 lock_rotation := ⟨false, false, false⟩,
                 lock_scale := ⟨false, false, false⟩ } := by
      unfold unlockBone
      rw [if_pos hb]
    rw [h1]
    unfold unlockBone
    rw [if_neg (by simp [boneFullyLocked, allAx])]
  · have h1 : unlockBone b = b := by
      unfold unlockBone
      rw [if_neg hb]
    rw [h1, h1]

theorem armStage_otype (x : Obj) : (armStage x).otype = x.otype := by
  cases x with
  | mk t ovr pose rna idp ch =>
    unfold armStage
    split
    · unfold repairArmature
      cases pose <;> rfl
    · rfl

theorem armStage_override (x : Obj) :
    (armStage x).override_library = x.override_library := by
  cases x with
  | mk t ovr pose rna idp ch =>
    unfold armStage
    split
    · unfold repairArmature
      cases pose <;> rfl
    · rfl

theorem armStage_pose_arm (x : Obj) (hx : x.otype = "ARMATURE") :
    (armStage x).pose = x.pose.map (List.map unlockBone) := by
  cases x with
  | mk t ovr pose rna idp ch =>
    unfold armStage
    rw [if_pos (show (Obj.mk t ovr pose rna idp ch).otype = "ARMATURE" from hx)]
    unfold repairArmature
    cases pose <;> rfl

theorem armStage_not_arm (x : Obj) (hx : x.otype ≠ "ARMATURE") :
    armStage x = x := by
  unfold armStage
  rw [if_neg hx]

theorem armStage_eq_self (x : Obj)
    (h : x.pose.map (List.map unlockBone) = x.pose) : armStage x = x := by
  cases x with
  | mk t ovr pose rna idp ch =>
    unfold armStage
    split
    · unfold repairArmature
      cases pose with
      | none => rfl
      | some bs =>
        have h' : bs.map unlockBone = bs := by
          simpa [Obj.pose] using h
        simp only
        rw [h']
    · rfl

theorem sysSet_otype (o : Obj) : (sysSet o).otype = o.otype := by
  cases o with
  | mk t ovr pose rna idp ch =>
    cases ovr with
    | none => rfl
    | some ov =>
      unfold sysSet
      simp only
      split <;> rfl

theorem sysSet_pose (o : Obj) : (sysSet o).pose = o.pose := by
  cases o with
  | mk t ovr pose rna idp ch =>
    cases ovr with
    | none => rfl
    | some ov =>
      unfold sysSet
      simp only
      split <;> rfl

theorem sysSet_flag (o : Obj) (ov' : Override)
    (h : (sysSet o).override_library = some ov') :
    ov'.is_system_override ≠ some true := by
  cases o with
  | mk t ovr pose rna idp ch =>
    cases ovr with
    | none => simp [sysSet, Obj.override_library] at h
    | some ov =>
      unfold sysSet at h
      simp only at h
      by_cases hfl : ov.is_system_override = some true
      · rw [if_pos hfl] at h
        simp only [Obj.override_library, Option.some.injEq] at h
        rw [← h]
        simp
      · rw [if_neg hfl] at h
        simp only [Obj.override_library, Option.some.injEq] at h
        rw [← h]
        exact hfl

theorem sysSet_eq_self (o : Obj)
    (h : ∀ ov, o.override_library = some ov → ov.is_system_override ≠ some true) :
    sysSet o = o := by
  cases o with
  | mk t ovr pose rna idp ch =>
    cases ovr with
    | none => rfl
    | some ov =>
      unfold sysSet
      simp only
      rw [if_neg (h ov rfl)]

theorem idWFList_iff : ∀ os : List Obj,
    (idWFList os = true ↔ ∀ c ∈ os, idWF c = true) := by
  intro os
  induction os with
  | nil => simp [idWFList]
  | cons c cs ih =>
    simp only [idWFList, Bool.and_eq_true, ih, List.mem_cons]
    constructor
    · rintro ⟨h1, h2⟩ x (rfl | hx)
      · exact h1
      · exact h2 x hx
    · intro h
      exact ⟨h c (Or.inl rfl), fun x hx => h x (Or.inr hx)⟩

theorem idWFList_map_mae (ch : List Obj)
    (hl : ∀ c ∈ ch, idWF (maeObj c).1 = idWF c) :
    idWFList (ch.map (fun c => (maeObj c).1)) = idWFList ch := by
  induction ch with
  | nil => rfl
  | cons c cs ih =>
    simp only [List.map_cons, idWFList, hl c (by simp)]
    rw [ih fun x hx => hl x (List.mem_cons_of_mem _ hx)]

theorem idWF_maeObj : ∀ o : Obj, idWF (maeObj o).1 = idWF o := by
  refine obj_ind _ ?_
  intro t ovr pose rna idp ch ih
  cases ovr with
  | none => rfl
  | some ov =>
    rcases hml : maeList ch with ⟨ch2, m⟩
    have hch2 : ch2 = ch.map (fun c => (maeObj c).1) := by
      have h0 := maeList_fst ch
      rw [hml] at h0
      exact h0
    simp only [maeObj, hml, idWF]
    rw [hch2, idWFList_map_mae ch ih]

theorem idWF_sysSet (o : Obj) : idWF (sysSet o) = idWF o := by
  cases o with
  | mk t ovr pose rna idp ch =>
    cases ovr with
    | none => rfl
    | some ov =>
      unfold sysSet
      simp only
      split <;> rfl

theorem idWF_armStage (o : Obj) : idWF (armStage o) = idWF o := by
  cases o with
  | mk t ovr pose rna idp ch =>
    unfold armStage
    split
    · unfold repairArmature
      cases pose <;> rfl
    · rfl

theorem idWF_nodup (a : Obj) (h : idWF a = true) :
    (a.id_props.map Prod.fst).Nodup := by
  cases a with
  | mk t ovr pose rna idp ch =>
    simp only [idWF, Bool.and_eq_true, decide_eq_true_eq] at h
    exact h.1

theorem idGet_idSet (idp : List (String × String)) (k v : String) :
    idGet (idSet idp k v) k = some v := by
  induction idp with
  | nil => simp [idGet, idSet, List.find?]
  | cons kv rest ih =>
    by_cases hk : kv.1 = k
    · simp [idGet, idSet, hk, List.find?]
    · simp only [idSet, if_neg hk]
      simp only [idGet] at ih ⊢
      rw [List.find?_cons_of_neg _ (by simpa using hk)]
      exact ih

theorem idGet_eq_none_of (idp : List (String × String)) (k : String)
    (h : ∀ kv ∈ idp, kv.1 ≠ k) : idGet idp k = none := by
  unfold idGet
  rw [List.find?_eq_none.mpr]
  · rfl
  · intro x hx
    simpa using h x hx

theorem idGet_idDel (idp : List (String × String)) (k : String)
    (h : (idp.map Prod.fst).Nodup) : idGet (idDel idp k) k = none := by
  induction idp with
  | nil => rfl
  | cons kv rest ih =>
    simp only [List.map_cons, List.nodup_cons] at h
    obtain ⟨h1, h2⟩ := h
    simp only [idDel]
    by_cases hk : kv.1 = k
    · rw [if_pos hk]
      refine idGet_eq_none_of rest k fun kv' hkv' he => ?_
      exact h1 (by rw [hk, ← he]; exact List.mem_map_of_mem Prod.fst hkv')
    · rw [if_neg hk]
      simp only [idGet] at ih ⊢
      rw [List.find?_cons_of_neg _ (by simpa using hk)]
      exact ih h2

theorem findArmList_updArmList (f : Obj → Obj) :
    ∀ l : List Obj, (∀ c ∈ l, findArm (updArm f c) = (findArm c).map f) →
      findArmList (updArmList f l) = (findArmList l).map f := by
  intro l
  induction l with
  | nil => intro _; rfl
  | cons c cs ih =>
    intro hl
    simp only [updArmList]
    by_cases h1 : (findArm c).isSome = true
    · rw [if_pos h1]
      rcases ha : findArm c with _ | a
      · rw [ha] at h1; simp at h1
      · simp [findArmList, hl c (by simp), ha]
    · rw [if_neg h1]
      rcases ha : findArm c with _ | a
      · simp [findArmList, ha, ih fun x hx => hl x (List.mem_cons_of_mem _ hx)]
      · rw [ha] at h1; simp at h1

theorem findArm_updArm (f : Obj → Obj)
    (hf : ∀ a : Obj, (f a).otype = a.otype) :
    ∀ x : Obj, findArm (updArm f x) = (findArm x).map f := by
  refine obj_ind _ ?_
  intro t ovr pose rna idp ch ih
  unfold updArm
  split
  · rcases hq : f (Obj.mk t ovr pose rna idp ch) with ⟨t2, ov2, p2, r2, i2, c2⟩
    have ht2 : t2 = "ARMATURE" := by
      have := hf (Obj.mk t ovr pose rna idp ch)
      rw [hq] at this
      simp only [Obj.otype] at this
      rw [this]
      assumption
    rw [← hq]
    have harm : t = "ARMATURE" := by assumption
    simp only [findArm, if_pos harm, Option.map_some', hq, if_pos ht2]
  · have harm : ¬t = "ARMATURE" := by assumption
    simp only [findArm, if_neg harm]
    exact findArmList_updArmList f ch ih

theorem findArmList_idWF :
    ∀ l : List Obj,
      (∀ c ∈ l, idWF c = true → ∀ a, findArm c = some a → idWF a = true) →
      idWFList l = true → ∀ a, findArmList l = some a → idWF a = true := by
  intro l
  induction l with
  | nil => intro _ _ a ha; simp [findArmList] at ha
  | cons c cs ih =>
    intro hl hwf a ha
    simp only [idWFList, Bool.and_eq_true] at hwf
    rcases hc : findArm c with _ | a0
    · simp only [findArmList, hc] at ha
      exact ih (fun x hx => hl x (List.mem_cons_of_mem _ hx)) hwf.2 a ha
    · simp only [findArmList, hc, Option.some.injEq] at ha
      rw [← ha]
      exact hl c (by simp) hwf.1 a0 hc

theorem findArm_idWF :
    ∀ x : Obj, idWF x = true → ∀ a, findArm x = some a → idWF a = true := by
  refine obj_ind _ ?_
  intro t ovr pose rna idp ch ih hwf a ha
  unfold findArm at ha
  split at ha
  · rw [← (Option.some.injEq _ _).mp ha]
    exact hwf
  · have hwl : idWFList ch = true := by
      simp only [idWF, Bool.and_eq_true] at hwf
      exact hwf.2
    exact findArmList_idWF ch ih hwl a ha

theorem containsSub_append (pat : Chars) :
    ∀ s t : Chars, containsSubL pat t = true → containsSubL pat (s ++ t) = true := by
  intro s
  induction s with
  | nil => intro u h; exact h
  | cons c cs ih =>
    intro u h
    simp only [List.cons_append, containsSubL, List.append_eq]
    rw [ih u h]
    simp

theorem editable_in_made (n : Nat) :
    containsSubL "editable".data
      (toLowerS ("Made " ++ natStr n ++ " properties editable")).data = true := by
  have h1 : (toLowerS ("Made " ++ natStr n ++ " properties editable")).data =
      ("Made ".data.map Char.toLower ++ (natStr n).data.map Char.toLower) ++
        " properties editable".data.map Char.toLower := by
    simp [toLowerS, str_data_append]
  rw [h1]
  exact containsSub_append _ _ _ (by decide)

theorem editable_in_conv :
    containsSubL "editable".data
      (toLowerS "Converted system override to editable").data = true := by decide

theorem foldl_err :
    ∀ I : List (String × String × String),
      (∀ i ∈ I, i.1 = "MISSING_REFERENCE" ∨ i.1 = "LIBRARY_NOT_FOUND") →
      ∀ (ob : Obj) (rs es : List String),
        ∃ es', I.foldl repairLoopStep (ob, rs, es) = (ob, rs, es') := by
  intro I
  induction I with
  | nil => intro _ ob rs es; exact ⟨es, rfl⟩
  | cons i I ih =>
    intro hI ob rs es
    rcases i with ⟨ty, d, sv⟩
    rcases hI (ty, d, sv) (by simp) with h | h
    · simp only at h
      subst h
      have h1 : repairLoopStep (ob, rs, es) ("MISSING_REFERENCE", d, sv) =
          (ob, rs, es ++ ["Cannot auto-repair missing reference"]) := by
        simp [repairLoopStep, attemptRepair]
      rw [List.foldl_cons, h1]
      exact ih (fun x hx => hI x (List.mem_cons_of_mem _ hx)) ob rs _
    · simp only at h
      subst h
      have h1 : repairLoopStep (ob, rs, es) ("LIBRARY_NOT_FOUND", d, sv) =
          (ob, rs, es ++ ["Library file missing - use Relocate"]) := by
        simp [repairLoopStep, attemptRepair]
      rw [List.foldl_cons, h1]
      exact ih (fun x hx => hI x (List.mem_cons_of_mem _ hx)) ob rs _

theorem mem_refIssue (ov : Override) :
    ∀ i ∈ ((if ov.reference.isNone then
        [("MISSING_REFERENCE",
          "Override reference missing - linked object may be deleted", "ERROR")]
      else []) : List (String × String × String)),
      i.1 = "MISSING_REFERENCE" ∨ i.1 = "LIBRARY_NOT_FOUND" := by
  intro i hi
  split at hi
  · simp only [List.mem_singleton] at hi
    subst hi
    left
    rfl
  · simp at hi

theorem mem_libIssue (env : HostEnv) (ov : Override) :
    ∀ i ∈ ((match ov.reference with
      | some ref =>
        match ref.library with
        | some lib =>
          if !env.fsExists (env.abspath lib.filepath) then
            [("LIBRARY_NOT_FOUND",
              "Library file missing: " ++ env.abspath lib.filepath, "ERROR")]
          else []
        | none => []
      | none => []) : List (String × String × String)),
      i.1 = "MISSING_REFERENCE" ∨ i.1 = "LIBRARY_NOT_FOUND" := by
  intro i hi
  rcases href : ov.reference with _ | ref
  · simp [href] at hi
  · rcases hlib : ref.library with _ | lib
    · simp [href, hlib] at hi
    · simp only [href, hlib] at hi
      split at hi
      · simp only [List.mem_singleton] at hi
        subst hi
        right
        rfl
      · simp at hi

theorem repair_tail (env : HostEnv) (o : Obj) (ov : Override)
    (hov : o.override_library = some ov)
    (o1 : Obj) (repairs errors : List String)
    (hfold : (diagnose_common_issues env o).foldl repairLoopStep (o, [], []) =
      (o1, repairs, errors)) :
    (repair_execute env o).obj =
      (repairRigUi env (armStage
        (if !(repairs.any fun r =>
            containsSubL "editable".data (toLowerS r).data) then
          (make_all_properties_editable o1).1
        else o1))).1 := by
  by_cases hg : (repairs.any fun r =>
      containsSubL "editable".data (toLowerS r).data) = true
  · rcases hra0 : (if o1.otype = "ARMATURE" then repairArmature o1 else (o1, []))
      with ⟨o3v, reps⟩
    rcases hrg : repairRigUi env o3v with ⟨o4v, msg⟩
    have harm : armStage o1 = o3v := by
      unfold armStage
      by_cases ha : o1.otype = "ARMATURE"
      · rw [if_pos ha]
        rw [if_pos ha] at hra0
        rw [hra0]
      · rw [if_neg ha]
        rw [if_neg ha] at hra0
        exact congrArg Prod.fst hra0
    simp only [repair_execute, hov, hfold, hg, Bool.not_true, Bool.false_eq_true,
      if_false, hra0, hrg, apply_ite RepairResult.obj, harm, ite_self]
  · rcases hmo : make_all_properties_editable o1 with ⟨obv, cnt⟩
    rcases hra0 : (if obv.otype = "ARMATURE" then repairArmature obv else (obv, []))
      with ⟨o3v, reps⟩
    rcases hrg : repairRigUi env o3v with ⟨o4v, msg⟩
    have hgate : (repairs.any fun r =>
        containsSubL "editable".data (toLowerS r).data) = false :=
      Bool.eq_false_iff.mpr hg
    have harm : armStage obv = o3v := by
      unfold armStage
      by_cases ha : obv.otype = "ARMATURE"
      · rw [if_pos ha]
        rw [if_pos ha] at hra0
        rw [hra0]
      · rw [if_neg ha]
        rw [if_neg ha] at hra0
        exact congrArg Prod.fst hra0
    simp only [repair_execute, hov, hfold, hgate, Bool.not_false, if_true, hmo,
      hra0, hrg, apply_ite RepairResult.obj, harm, ite_self]

theorem repairState_some (env : HostEnv) (o : Obj) (ov : Override)
    (hov : o.override_library = some ov) :
    repairState env o = (repairRigUi env (armStage (sysSet (maeObj o).1))).1 := by
  unfold repairState
  rw [hov]

theorem end_noflag (env : HostEnv) (o x : Obj)
    (hx : (maeObj o).1 = x) (ov : Override)
    (hov : o.override_library = some ov)
    (hxf : ∀ ov', x.override_library = some ov' →
      ov'.is_system_override ≠ some true) :
    (repairRigUi env (armStage x)).1 = repairState env o := by
  rw [repairState_some env o ov hov, hx, sysSet_eq_self x hxf]

theorem repair_obj_eq (env : HostEnv) (o : Obj) (hst : sysTrapped o = false) :
    (repair_execute env o).obj = repairState env o := by
  rcases o with ⟨t, ovr, pose, rna, idp, ch⟩
  cases ovr with
  | none => simp [repair_execute, repairState, Obj.override_library]
  | some ov =>
    rcases hml : maeList ch with ⟨ch2, mm⟩
    have hmae : maeObj (Obj.mk t (some ov) pose rna idp ch) =
        (Obj.mk t (some { ov with properties :=
            ((objAddList t pose rna).foldl addPath ov.properties) })
          pose rna idp ch2,
         (objAddList t pose rna).length + mm) := by
      simp [maeObj, hml]
    have hmae1 : (maeObj (Obj.mk t (some ov) pose rna idp ch)).1 =
        Obj.mk t (some { ov with properties :=
            ((objAddList t pose rna).foldl addPath ov.properties) })
          pose rna idp ch2 := by
      rw [hmae]
    have hdi : diagnose_common_issues env (Obj.mk t (some ov) pose rna idp ch) =
        (if ov.reference.isNone then
          [("MISSING_REFERENCE",
            "Override reference missing - linked object may be deleted", "ERROR")]
         else []) ++
        ((match ov.reference with
          | some ref =>
            match ref.library with
            | some lib =>
              if !env.fsExists (env.abspath lib.filepath) then
                [("LIBRARY_NOT_FOUND",
                  "Library file missing: " ++ env.abspath lib.filepath, "ERROR")]
              else []
            | none => []
          | none => []) ++
         ((if ov.properties.length = 0 then
            [("NO_EDITABLE_PROPS",
              "No editable properties - use 'Make All Editable'", "WARNING")]
           else []) ++
          (match ov.is_system_override with
           | some true =>
             [("SYSTEM_OVERRIDE",
               "System-generated override - may need resync", "INFO")]
           | _ => []))) := by
      simp [diagnose_common_issues, Obj.override_library, List.append_assoc]
    obtain ⟨es1, hE1⟩ := foldl_err _ (mem_refIssue ov)
      (Obj.mk t (some ov) pose rna idp ch) [] []
    obtain ⟨es2, hE2⟩ := foldl_err _ (mem_libIssue env ov)
      (Obj.mk t (some ov) pose rna idp ch) [] es1
    by_cases hP : ov.properties.length = 0
    · by_cases hfl : ov.is_system_override = some true
      · -- system-flagged with empty editable set: the loop saturates the
        -- properties, then resets the flag; the message gate then skips
        -- the unconditional editability pass.
        have hSS : (match ov.is_system_override with
            | some true =>
              [("SYSTEM_OVERRIDE",
                "System-generated override - may need resync", "INFO")]
            | _ => ([] : List (String × String × String))) =
            [("SYSTEM_OVERRIDE",
              "System-generated override - may need resync", "INFO")] := by
          rw [hfl]
        by_cases hcnt : 0 < (objAddList t pose rna).length + mm
        · have hstep : repairLoopStep
              (Obj.mk t (some ov) pose rna idp ch, [], es2)
              ("NO_EDITABLE_PROPS",
               "No editable properties - use 'Make All Editable'", "WARNING") =
              (Obj.mk t (some { ov with properties :=
                  ((objAddList t pose rna).foldl addPath ov.properties) })
                pose rna idp ch2,
               ["Made " ++ natStr ((objAddList t pose rna).length + mm) ++
                 " properties editable"], es2) := by
            simp [repairLoopStep, attemptRepair, make_all_properties_editable,
              hmae, hcnt]
          have hstep2 : repairLoopStep
              (Obj.mk t (some { ov with properties :=
                  ((objAddList t pose rna).foldl addPath ov.properties) })
                pose rna idp ch2,
               ["Made " ++ natStr ((objAddList t pose rna).length + mm) ++
                 " properties editable"], es2)
              ("SYSTEM_OVERRIDE",
               "System-generated override - may need resync", "INFO") =
              (sysSet (Obj.mk t (some { ov with properties :=
                  ((objAddList t pose rna).foldl addPath ov.properties) })
                pose rna idp ch2),
               ["Made " ++ natStr ((objAddList t pose rna).length + mm) ++
                 " properties editable",
                "Converted system override to editable"], es2) := by
            simp [repairLoopStep, attemptRepair, sysSet, hfl]
          have hfold : (diagnose_common_issues env
              (Obj.mk t (some ov) pose rna idp ch)).foldl repairLoopStep
              (Obj.mk t (some ov) pose rna idp ch, [], []) =
              (sysSet (Obj.mk t (some { ov with properties :=
                  ((objAddList t pose rna).foldl addPath ov.properties) })
                pose rna idp ch2),
               ["Made " ++ natStr ((objAddList t pose rna).length + mm) ++
                 " properties editable",
                "Converted system override to editable"], es2) := by
            rw [hdi, List.foldl_append, hE1, List.foldl_append, hE2,
              if_pos hP, hSS]
            simp only [List.cons_append, List.nil_append, List.foldl_cons,
              List.foldl_nil, hstep, hstep2]
          rw [repair_tail env (Obj.mk t (some ov) pose rna idp ch) ov rfl _ _ _ hfold]
          have hgate : (List.any
              ["Made " ++ natStr ((objAddList t pose rna).length + mm) ++
                 " properties editable",
               "Converted system override to editable"]
              fun r => containsSubL "editable".data (toLowerS r).data) = true := by
            simp only [List.any_cons, List.any_nil, Bool.or_eq_true,
              Bool.or_false]
            exact Or.inr (editable_in_conv)
          rw [hgate]
          simp only [Bool.not_true, Bool.false_eq_true, if_false]
          rw [repairState_some env (Obj.mk t (some ov) pose rna idp ch) ov rfl, hmae1]
        · have hstep : repairLoopStep
              (Obj.mk t (some ov) pose rna idp ch, [], es2)
              ("NO_EDITABLE_PROPS",
               "No editable properties - use 'Make All Editable'", "WARNING") =
              (Obj.mk t (some { ov with properties :=
                  ((objAddList t pose rna).foldl addPath ov.properties) })
                pose rna idp ch2, [], es2) := by
            simp [repairLoopStep, attemptRepair, make_all_properties_editable,
              hmae, hcnt]
          have hstep2 : repairLoopStep
              (Obj.mk t (some { ov with properties :=
                  ((objAddList t pose rna).foldl addPath ov.properties) })
                pose rna idp ch2, [], es2)
              ("SYSTEM_OVERRIDE",
               "System-generated override - may need resync", "INFO") =
              (sysSet (Obj.mk t (some { ov with properties :=
                  ((objAddList t pose rna).foldl addPath ov.properties) })
                pose rna idp ch2),
               ["Converted system override to editable"], es2) := by
            simp [repairLoopStep, attemptRepair, sysSet, hfl]
          have hfold : (diagnose_common_issues env
              (Obj.mk t (some ov) pose rna idp ch)).foldl repairLoopStep
              (Obj.mk t (some ov) pose rna idp ch, [], []) =
              (sysSet (Obj.mk t (some { ov with properties :=
                  ((objAddList t pose rna).foldl addPath ov.properties) })
                pose rna idp ch2),
               ["Converted system override to editable"], es2) := by
            rw [hdi, List.foldl_append, hE1, List.foldl_append, hE2,
              if_pos hP, hSS]
            simp only [List.cons_append, List.nil_append, List.foldl_cons,
              List.foldl_nil, hstep, hstep2]
          rw [repair_tail env (Obj.mk t (some ov) pose rna idp ch) ov rfl _ _ _ hfold]
          have hgate : (List.any
              ["Converted system override to editable"]
              fun r => containsSubL "editable".data (toLowerS r).data) = true := by
            simp only [List.any_cons, List.any_nil, Bool.or_eq_true,
              Bool.or_false]
            exact editable_in_conv
          rw [hgate]
          simp only [Bool.not_true, Bool.false_eq_true, if_false]
          rw [repairState_some env (Obj.mk t (some ov) pose rna idp ch) ov rfl, hmae1]
      · -- empty editable set, flag not `some true`: the loop runs the
        -- editability pass; the gate re-runs it only when it added nothing.
        have hSS : (match ov.is_system_override with
            | some true =>
              [("SYSTEM_OVERRIDE",
                "System-generated override - may need resync", "INFO")]
            | _ => ([] : List (String × String × String))) = [] := by
          rcases hsv : ov.is_system_override with _ | b
          · rfl
          · cases b
            · rfl
            · exact absurd hsv hfl
        have hxf : ∀ ov', (Obj.mk t (some { ov with properties :=
            ((objAddList t pose rna).foldl addPath ov.properties) })
            pose rna idp ch2).override_library = some ov' →
            ov'.is_system_override ≠ some true := by
          intro ov' hov'
          simp only [Obj.override_library, Option.some.injEq] at hov'
          rw [← hov']
          exact hfl
        by_cases hcnt : 0 < (objAddList t pose rna).length + mm
        · have hstep : repairLoopStep
              (Obj.mk t (some ov) pose rna idp ch, [], es2)
              ("NO_EDITABLE_PROPS",
               "No editable properties - use 'Make All Editable'", "WARNING") =
              (Obj.mk t (some { ov with properties :=
                  ((objAddList t pose rna).foldl addPath ov.properties) })
                pose rna idp ch2,
               ["Made " ++ natStr ((objAddList t pose rna).length + mm) ++
                 " properties editable"], es2) := by
            simp [repairLoopStep, attemptRepair, make_all_properties_editable,
              hmae, hcnt]
          have hfold : (diagnose_common_issues env
              (Obj.mk t (some ov) pose rna idp ch)).foldl repairLoopStep
              (Obj.mk t (some ov) pose rna idp ch, [], []) =
              (Obj.mk t (some { ov with properties :=
                  ((objAddList t pose rna).foldl addPath ov.properties) })
                pose rna idp ch2,
               ["Made " ++ natStr ((objAddList t pose rna).length + mm) ++
                 " properties editable"], es2) := by
            rw [hdi, List.foldl_append, hE1, List.foldl_append, hE2,
              if_pos hP, hSS]
            simp only [List.append_nil, List.foldl_cons, List.foldl_nil, hstep]
          rw [repair_tail env (Obj.mk t (some ov) pose rna idp ch) ov rfl _ _ _ hfold]
          have hgate : (List.any
              ["Made " ++ natStr ((objAddList t pose rna).length + mm) ++
                 " properties editable"]
              fun r => containsSubL "editable".data (toLowerS r).data) = true := by
            simp only [List.any_cons, List.any_nil, Bool.or_eq_true,
              Bool.or_false]
            exact editable_in_made _
          rw [hgate]
          simp only [Bool.not_true, Bool.false_eq_true, if_false]
          exact end_noflag env (Obj.mk t (some ov) pose rna idp ch) _ hmae1 ov rfl hxf
        · have hstep : repairLoopStep
              (Obj.mk t (some ov) pose rna idp ch, [], es2)
              ("NO_EDITABLE_PROPS",
               "No editable properties - use 'Make All Editable'", "WARNING") =
              (Obj.mk t (some { ov with properties :=
                  ((objAddList t pose rna).foldl addPath ov.properties) })
                pose rna idp ch2, [], es2) := by
            simp [repairLoopStep, attemptRepair, make_all_properties_editable,
              hmae, hcnt]
          have hfold : (diagnose_common_issues env
              (Obj.mk t (some ov) pose rna idp ch)).foldl repairLoopStep
              (Obj.mk t (some ov) pose rna idp ch, [], []) =
              (Obj.mk t (some { ov with properties :=
                  ((objAddList t pose rna).foldl addPath ov.properties) })
                pose rna idp ch2, [], es2) := by
            rw [hdi, List.foldl_append, hE1, List.foldl_append, hE2,
              if_pos hP, hSS]
            simp only [List.append_nil, List.foldl_cons, List.foldl_nil, hstep]
          rw [repair_tail env (Obj.mk t (some ov) pose rna idp ch) ov rfl _ _ _ hfold]
          have hsat : satB (Obj.mk t (some { ov with properties :=
              ((objAddList t pose rna).foldl addPath ov.properties) })
              pose rna idp ch2) = true := by
            have h0 := satB_maeObj (Obj.mk t (some ov) pose rna idp ch)
            rw [hmae1] at h0
            exact h0
          have hXX : (make_all_properties_editable
              (Obj.mk t (some { ov with properties :=
                ((objAddList t pose rna).foldl addPath ov.properties) })
                pose rna idp ch2)).1 =
              Obj.mk t (some { ov with properties :=
                ((objAddList t pose rna).foldl addPath ov.properties) })
                pose rna idp ch2 :=
            maeObj_of_satB _ hsat
          simp only [List.any_nil, Bool.not_false, if_true, hXX]
          exact end_noflag env (Obj.mk t (some ov) pose rna idp ch) _ hmae1 ov rfl hxf
    · -- nonempty editable set: `sysTrapped = false` forces the flag off,
      -- the loop makes no repairs, and the gate runs the editability pass.
      have hfl : ov.is_system_override ≠ some true := by
        intro hfl'
        simp only [sysTrapped, Obj.override_library, hfl'] at hst
        simp [List.isEmpty_iff] at hst
        exact hP (by rw [hst]; rfl)
      have hSS : (match ov.is_system_override with
          | some true =>
            [("SYSTEM_OVERRIDE",
              "System-generated override - may need resync", "INFO")]
          | _ => ([] : List (String × String × String))) = [] := by
        rcases hsv : ov.is_system_override with _ | b
        · rfl
        · cases b
          · rfl
          · exact absurd hsv hfl
      have hxf : ∀ ov', (Obj.mk t (some { ov with properties :=
          ((objAddList t pose rna).foldl addPath ov.properties) })
          pose rna idp ch2).override_library = some ov' →
          ov'.is_system_override ≠ some true := by
        intro ov' hov'
        simp only [Obj.override_library, Option.some.injEq] at hov'
        rw [← hov']
        exact hfl
      have hfold : (diagnose_common_issues env
          (Obj.mk t (some ov) pose rna idp ch)).foldl repairLoopStep
          (Obj.mk t (some ov) pose rna idp ch, [], []) =
          (Obj.mk t (some ov) pose rna idp ch, [], es2) := by
        rw [hdi, List.foldl_append, hE1, List.foldl_append, hE2,
          if_neg hP, hSS]
        rfl
      rw [repair_tail env (Obj.mk t (some ov) pose rna idp ch) ov rfl _ _ _ hfold]
      simp only [List.any_nil, Bool.not_false, if_true]
      have hm1 : (make_all_properties_editable
          (Obj.mk t (some ov) pose rna idp ch)).1 =
          Obj.mk t (some { ov with properties :=
            ((objAddList t pose rna).foldl addPath ov.properties) })
            pose rna idp ch2 := hmae1
      rw [hm1]
      exact end_noflag env (Obj.mk t (some ov) pose rna idp ch) _ hmae1 ov rfl hxf

theorem rig_override (env : HostEnv) (x : Obj) :
    ((repairRigUi env x).1).override_library = x.override_library := by
  rcases rig_cases env x with h | ⟨f, hf, h⟩
  · rw [h]
  · rw [h]
    exact updArm_override f
      (fun a => by obtain ⟨s, hs⟩ := hf a; rw [hs]; exact setIdProps_override a s) x

theorem rig_otype (env : HostEnv) (x : Obj) :
    ((repairRigUi env x).1).otype = x.otype := by
  rcases rig_cases env x with h | ⟨f, hf, h⟩
  · rw [h]
  · rw [h]
    exact updArm_otype f
      (fun a => by obtain ⟨s, hs⟩ := hf a; rw [hs]; exact setIdProps_otype a s) x

theorem rig_pose (env : HostEnv) (x : Obj) :
    ((repairRigUi env x).1).pose = x.pose := by
  rcases rig_cases env x with h | ⟨f, hf, h⟩
  · rw [h]
  · rw [h]
    exact updArm_pose f
      (fun a => by obtain ⟨s, hs⟩ := hf a; rw [hs]; exact setIdProps_pose a s) x

theorem satB_rig (env : HostEnv) (x : Obj) :
    satB ((repairRigUi env x).1) = satB x := by
  rcases rig_cases env x with h | ⟨f, hf, h⟩
  · rw [h]
  · rw [h]
    exact satB_updArm f
      (fun a => by obtain ⟨s, hs⟩ := hf a; rw [hs]; exact satB_setIdProps a s) x

theorem sysTrapped_false_of_flag (x : Obj)
    (h : ∀ ov', x.override_library = some ov' →
      ov'.is_system_override ≠ some true) :
    sysTrapped x = false := by
  unfold sysTrapped
  split
  · rename_i ov' heq
    rw [beq_eq_false_iff_ne.mpr (h ov' heq)]
    rfl
  · rfl

theorem sysTrapped_repairState (env : HostEnv) (o : Obj)
    (h1 : sysTrapped o = false) : sysTrapped (repairState env o) = false := by
  rcases hov : o.override_library with _ | ov
  · have h0 : repairState env o = o := by
      unfold repairState
      rw [hov]
    rw [h0]
    exact h1
  · rw [repairState_some env o ov hov]
    apply sysTrapped_false_of_flag
    intro ov' hv
    rw [rig_override, armStage_override] at hv
    exact sysSet_flag _ ov' hv

theorem rig_idem (env : HostEnv) (m : Obj) (hwf : idWF m = true) :
    (repairRigUi env ((repairRigUi env m).1)).1 = (repairRigUi env m).1 := by
  rcases hfa : findArm m with _ | arm
  · have h0 : (repairRigUi env m).1 = m := by simp [repairRigUi, hfa]
    rw [h0]
    exact h0
  · rcases hg : idGet arm.id_props "proref_rig_ui" with _ | sn
    · have h0 : (repairRigUi env m).1 = m := by simp [repairRigUi, hfa, hg]
      rw [h0]
      exact h0
    · by_cases hemp : sn = ""
      · have h0 : (repairRigUi env m).1 = m := by
          simp [repairRigUi, hfa, hg, hemp]
        rw [h0]
        exact h0
      · by_cases htex : sn ∈ env.texts
        · have h0 : (repairRigUi env m).1 = m := by
            simp [repairRigUi, hfa, hg, hemp, htex]
          rw [h0]
          exact h0
        · have hnd : (arm.id_props.map Prod.fst).Nodup :=
            idWF_nodup arm (findArm_idWF m hwf arm hfa)
          rcases ho2 : idGet arm.id_props "proref_original_script" with _ | original
          · have h0 : (repairRigUi env m).1 =
                updArm (fun a =>
                  a.setIdProps (idDel a.id_props "proref_rig_ui")) m := by
              simp [repairRigUi, hfa, hg, hemp, htex, ho2]
            have hfa2 : findArm (updArm (fun a =>
                a.setIdProps (idDel a.id_props "proref_rig_ui")) m) =
                some (arm.setIdProps (idDel arm.id_props "proref_rig_ui")) := by
              rw [findArm_updArm _ (fun a => setIdProps_otype a _) m, hfa]
              rfl
            have hip : (arm.setIdProps
                (idDel arm.id_props "proref_rig_ui")).id_props =
                idDel arm.id_props "proref_rig_ui" := by
              cases arm
              rfl
            have hg2 : idGet (arm.setIdProps
                (idDel arm.id_props "proref_rig_ui")).id_props
                "proref_rig_ui" = none := by
              rw [hip]
              exact idGet_idDel _ _ hnd
            rw [h0]
            simp [repairRigUi, hfa2, hg2]
          · by_cases hcond : original ≠ "" ∧ original ∈ env.texts
            · have h0 : (repairRigUi env m).1 =
                  updArm (fun a =>
                    a.setIdProps (idSet a.id_props "proref_rig_ui" original)) m := by
                simp [repairRigUi, hfa, hg, hemp, htex, ho2, hcond]
              have hfa2 : findArm (updArm (fun a =>
                  a.setIdProps (idSet a.id_props "proref_rig_ui" original)) m) =
                  some (arm.setIdProps
                    (idSet arm.id_props "proref_rig_ui" original)) := by
                rw [findArm_updArm _ (fun a => setIdProps_otype a _) m, hfa]
                rfl
              have hip : (arm.setIdProps
                  (idSet arm.id_props "proref_rig_ui" original)).id_props =
                  idSet arm.id_props "proref_rig_ui" original := by
                cases arm
                rfl
              have hg2 : idGet (arm.setIdProps
                  (idSet arm.id_props "proref_rig_ui" original)).id_props
                  "proref_rig_ui" = some original := by
                rw [hip]
                exact idGet_idSet _ _ _
              rw [h0]
              simp [repairRigUi, hfa2, hg2, hcond.1, hcond.2]
            · have h0 : (repairRigUi env m).1 =
                  updArm (fun a =>
                    a.setIdProps (idDel a.id_props "proref_rig_ui")) m := by
                simp [repairRigUi, hfa, hg, hemp, htex, ho2, hcond]
              have hfa2 : findArm (updArm (fun a =>
                  a.setIdProps (idDel a.id_props "proref_rig_ui")) m) =
                  some (arm.setIdProps (idDel arm.id_props "proref_rig_ui")) := by
                rw [findArm_updArm _ (fun a => setIdProps_otype a _) m, hfa]
                rfl
              have hip : (arm.setIdProps
                  (idDel arm.id_props "proref_rig_ui")).id_props =
                  idDel arm.id_props "proref_rig_ui" := by
                cases arm
                rfl
              have hg2 : idGet (arm.setIdProps
                  (idDel arm.id_props "proref_rig_ui")).id_props
                  "proref_rig_ui" = none := by
                rw [hip]
                exact idGet_idDel _ _ hnd
              rw [h0]
              simp [repairRigUi, hfa2, hg2]

theorem repairState_idem (env : HostEnv) (o : Obj) (h2 : idWF o = true) :
    repairState env (repairState env o) = repairState env o := by
  rcases hov : o.override_library with _ | ov
  · have h0 : repairState env o = o := by
      unfold repairState
      rw [hov]
    rw [h0, h0]
  · rw [repairState_some env o ov hov]
    have hsatr1 : satB
        ((repairRigUi env (armStage (sysSet (maeObj o).1))).1) = true := by
      rw [satB_rig, satB_armStage, satB_sysSet]
      exact satB_maeObj o
    have hflagr1 : ∀ ov',
        ((repairRigUi env (armStage (sysSet (maeObj o).1))).1).override_library
          = some ov' → ov'.is_system_override ≠ some true := by
      intro ov' hv
      rw [rig_override, armStage_override] at hv
      exact sysSet_flag _ ov' hv
    have hwfm : idWF (armStage (sysSet (maeObj o).1)) = true := by
      rw [idWF_armStage, idWF_sysSet, idWF_maeObj]
      exact h2
    rcases hro : ((repairRigUi env
        (armStage (sysSet (maeObj o).1))).1).override_library with _ | ov1
    · unfold repairState
      rw [hro]
    · rw [repairState_some env _ ov1 hro]
      rw [maeObj_of_satB _ hsatr1]
      rw [sysSet_eq_self _ hflagr1]
      have hty_eq :
          ((repairRigUi env (armStage (sysSet (maeObj o).1))).1).otype =
            (sysSet (maeObj o).1).otype := by
        rw [rig_otype, armStage_otype]
      have harm1 : armStage
          ((repairRigUi env (armStage (sysSet (maeObj o).1))).1) =
          (repairRigUi env (armStage (sysSet (maeObj o).1))).1 := by
        by_cases hty : (sysSet (maeObj o).1).otype = "ARMATURE"
        · apply armStage_eq_self
          rw [rig_pose, armStage_pose_arm _ hty]
          cases hzp : (sysSet (maeObj o).1).pose with
          | none => rfl
          | some bs =>
            have hbs : (bs.map unlockBone).map unlockBone = bs.map unlockBone :=
              map_id_of_mem unlockBone _ (fun x hx => by
                rcases List.mem_map.mp hx with ⟨b, _, rfl⟩
                exact unlockBone_idem b)
            simp only [Option.map_some', hbs]
        · apply armStage_not_arm
          rw [hty_eq]
          exact hty
      rw [harm1]
      exact rig_idem env _ hwfm

/-- C3: running the one-click repair twice in immediate succession leaves
    the second run with no further state changes: the object state after
    two runs equals the state after one, provided the override is not a
    system-flagged override that already has a nonempty editable-property
    set (`sysTrapped`, where the first run's gate skips the editability
    pass that the second run then performs), and custom-property keys are
    distinct, as Python dict keys are.  The second run can nevertheless
    still *report* repairs (see `c3_counterexample`), since the
    editability pass counts add attempts, not additions. -/
theorem c3_repair_state_idempotent (env : HostEnv) (o : Obj)
    (h1 : sysTrapped o = false) (h2 : idWF o = true) :
    (repair_execute env (repair_execute env o).obj).obj =
      (repair_execute env o).obj := by
  rw [repair_obj_eq env o h1]
  rw [repair_obj_eq env (repairState env o) (sysTrapped_repairState env o h1)]
  exact repairState_idem env o h2

/-- C3 counterexample to the claim as stated:  (i) the second run does not
    report zero new fixes — on a plain mesh override with one writable RNA
    property it re-reports "Made 1 properties editable", because the
    editability pass increments its count for every `add` attempt and
    re-adding an existing path is a silent no-op; (ii) in the `sysTrapped`
    configuration (system-flagged override with a nonempty property list)
    the state after two runs differs from the state after one run: the
    first run's "Converted system override to editable" message makes the
    gate skip the editability pass, which the second run then performs,
    growing the property list. -/
theorem c3_counterexample :
    (repair_execute ⟨[], id, fun _ => true⟩
      (repair_execute ⟨[], id, fun _ => true⟩
        (.mk "MESH" (some ⟨none, [], none⟩) none
          [⟨"foo", false⟩] [] [])).obj).repairs ≠ [] ∧
    ((repair_execute ⟨[], id, fun _ => true⟩
      (repair_execute ⟨[], id, fun _ => true⟩
        (.mk "MESH" (some ⟨none, ["x"], some true⟩) none
          [⟨"foo", false⟩] [] [])).obj).obj).override_library.map
        (fun ov => ov.properties) ≠
      ((repair_execute ⟨[], id, fun _ => true⟩
        (.mk "MESH" (some ⟨none, ["x"], some true⟩) none
          [⟨"foo", false⟩] [] [])).obj).override_library.map
        (fun ov => ov.properties) :=
  ⟨by decide, by decide⟩

/-- C3 witness: the hypotheses are satisfiable — a healthy mesh override
    with one writable property — and the theorem yields state equality of
    the two runs there. -/
theorem c3_repair_state_idempotent_witness :
    sysTrapped (.mk "MESH" (some ⟨none, [], none⟩) none
      [⟨"foo", false⟩] [] []) = false ∧
    idWF (.mk "MESH" (some ⟨none, [], none⟩) none
      [⟨"foo", false⟩] [] []) = true ∧
    (repair_execute ⟨[], id, fun _ => true⟩
      (repair_execute ⟨[], id, fun _ => true⟩
        (.mk "MESH" (some ⟨none, [], none⟩) none
          [⟨"foo", false⟩] [] [])).obj).obj =
      (repair_execute ⟨[], id, fun _ => true⟩
        (.mk "MESH" (some ⟨none, [], none⟩) none
          [⟨"foo", false⟩] [] [])).obj :=
  ⟨by decide, by decide,
   c3_repair_state_idempotent ⟨[], id, fun _ => true⟩
     (.mk "MESH" (some ⟨none, [], none⟩) none [⟨"foo", false⟩] [] [])
     (by decide) (by decide)⟩

end ProRef
